import Mathlib

/-!
Verification of the rockrockrock node-graph factory simulation.

This file shallowly embeds the simulation core of the repository
(`src/game/inventory.ts`, `src/game/tickEngine.ts`, `src/game/resource.ts`,
`src/game/nodeTypes.ts`, `src/nodeManager.ts`, `src/nodeData.ts`) and proves
or refutes the specification claims about it.

Modelling conventions:
- JS numbers that hold quantities, capacities, power and ticks are modelled
  as `Int` (the game only ever handles integral amounts).
- A JS `Map` is modelled as an association list with insertion-order
  semantics: setting an existing key updates it in place, setting a new key
  appends, deleting filters the key out.
- Stateful methods become functions returning the new value (and the
  method result where there is one).
- Display-only fields (positions, sizes, colors, display names) are not
  modelled: no simulation code path reads them.
-/

namespace RockRock

/-- Insertion-ordered association map lookup (JS `Map.get`). -/
def mapGet {α : Type} (l : List (String × α)) (k : String) : Option α :=
  match l with
  | [] => none
  | (k0, v) :: rest => if k0 = k then some v else mapGet rest k

/-- Insertion-ordered association map update (JS `Map.set`): updates the
first entry with the key in place, otherwise appends at the end. -/
def mapSet {α : Type} (l : List (String × α)) (k : String) (v : α) :
    List (String × α) :=
  match l with
  | [] => [(k, v)]
  | (k0, v0) :: rest =>
      if k0 = k then (k0, v) :: rest else (k0, v0) :: mapSet rest k v

/-- Association map deletion (JS `Map.delete`). -/
def mapDelete {α : Type} (l : List (String × α)) (k : String) :
    List (String × α) :=
  l.filter (fun p => ¬ p.1 = k)

/-- Sum of the values of an association map with `Int` values. -/
def mapSum (l : List (String × Int)) : Int :=
  l.foldr (fun p acc => p.2 + acc) 0

-- ── resource.ts ──

/-- `ResourceType` — storable resource kinds. -/
inductive ResourceType
  | item
  | liquid
  | gas
deriving DecidableEq

/-- `PortType` — physical port kinds (`power` is not storable). -/
inductive PortType
  | item
  | liquid
  | gas
  | power
deriving DecidableEq

/-- `resourceTypeToPortType` — inject storable kinds into port kinds. -/
def resourceTypeToPortType : ResourceType → PortType
  | ResourceType.item => PortType.item
  | ResourceType.liquid => PortType.liquid
  | ResourceType.gas => PortType.gas

/-- The `RESOURCES` catalog restricted to the field the engine reads
(`type`); display name and color are presentation-only. -/
def RESOURCES : List (String × ResourceType) :=
  [("rock", ResourceType.item), ("stone", ResourceType.item),
   ("iron_ore", ResourceType.item), ("iron", ResourceType.item),
   ("copper_ore", ResourceType.item), ("copper", ResourceType.item),
   ("gear", ResourceType.item), ("circuit", ResourceType.item),
   ("coal", ResourceType.item),
   ("water", ResourceType.liquid), ("oil", ResourceType.liquid),
   ("acid", ResourceType.liquid),
   ("steam", ResourceType.gas), ("oxygen", ResourceType.gas)]

/-- `getResourceType` — catalog lookup (`RESOURCES[id]?.type`). -/
def getResourceType (id : String) : Option ResourceType :=
  mapGet RESOURCES id

/-- A `ResourceStack` — a resource id with an amount. -/
structure ResourceStack where
  resourceId : String
  amount : Int
deriving DecidableEq

-- ── inventory.ts ──

/-- The `Inventory` class: quantities per resource id plus a total
capacity (`0` = unbounded). -/
structure Inventory where
  items : List (String × Int)
  maxCapacity : Int
deriving DecidableEq

namespace Inventory

/-- `totalAmount` getter. -/
def totalAmount (inv : Inventory) : Int :=
  mapSum inv.items

/-- `getAmount(id)` — stored quantity, `0` when absent. -/
def getAmount (inv : Inventory) (id : String) : Int :=
  (mapGet inv.items id).getD 0

/-- `add(id, amount)` — clamps to remaining capacity when bounded, no-op
for non-positive requests; returns the amount actually added. -/
def add (inv : Inventory) (id : String) (amount : Int) : Int × Inventory :=
  if amount ≤ 0 then (0, inv)
  else
    let amount' :=
      if 0 < inv.maxCapacity then min amount (inv.maxCapacity - inv.totalAmount)
      else amount
    if amount' ≤ 0 then (0, inv)
    else (amount',
      { inv with items := mapSet inv.items id (inv.getAmount id + amount') })

/-- `remove(id, amount)` — clamps to the stored quantity, deletes an entry
that reaches zero; returns the amount actually removed. -/
def remove (inv : Inventory) (id : String) (amount : Int) : Int × Inventory :=
  let current := inv.getAmount id
  let removed := min current amount
  if removed ≤ 0 then (0, inv)
  else
    let remaining := current - removed
    if remaining ≤ 0 then (removed, { inv with items := mapDelete inv.items id })
    else (removed, { inv with items := mapSet inv.items id remaining })

/-- `has(id, amount)`. -/
def has (inv : Inventory) (id : String) (amount : Int) : Bool :=
  decide (amount ≤ inv.getAmount id)

/-- `hasAll(stacks)`. -/
def hasAll (inv : Inventory) (stackList : List ResourceStack) : Bool :=
  stackList.all (fun s => inv.has s.resourceId s.amount)

/-- `removeAll(stacks)` — removes nothing and returns `false` unless
`hasAll` succeeds, otherwise removes each stack in order. -/
def removeAll (inv : Inventory) (stackList : List ResourceStack) :
    Bool × Inventory :=
  if inv.hasAll stackList then
    (true, stackList.foldl (fun acc s => (acc.remove s.resourceId s.amount).2) inv)
  else (false, inv)

/-- `toStacks()` — the positive entries in insertion order. -/
def toStacks (inv : Inventory) : List ResourceStack :=
  inv.items.filterMap (fun p => if 0 < p.2 then some ⟨p.1, p.2⟩ else none)

end Inventory

-- ── nodeTypes.ts ──

/-- A `RecipePortBinding` — a port index with a resource and amount. -/
structure RecipePortBinding where
  portIndex : Nat
  resourceId : String
  amount : Int
deriving DecidableEq

/-- A `Recipe` — machine type, input/output bindings, per-tick power delta
(positive = consumption, negative = generation) and duration in ticks. -/
structure Recipe where
  machine : String
  inputs : List RecipePortBinding
  outputs : List RecipePortBinding
  powerPerTick : Int
  ticks : Int
deriving DecidableEq

/-- A `MachineTypeDef` restricted to the fields the tick engine reads. -/
structure MachineTypeDef where
  id : String
  inventoryCapacity : Int
deriving DecidableEq

/-- The `MACHINE_TYPES` catalog (ids and inventory capacities; port layouts
and display geometry are consumed only by node construction and rendering). -/
def MACHINE_TYPES : List (String × MachineTypeDef) :=
  [("miner", ⟨"miner", 20⟩), ("furnace", ⟨"furnace", 30⟩),
   ("assembler", ⟨"assembler", 30⟩), ("boiler", ⟨"boiler", 40⟩),
   ("generator", ⟨"generator", 20⟩), ("storage", ⟨"storage", 100⟩),
   ("tank", ⟨"tank", 200⟩), ("gas_tank", ⟨"gas_tank", 200⟩)]

/-- The `RECIPES` table. -/
def RECIPES : List Recipe :=
  [⟨"miner", [], [⟨0, "rock", 1⟩], 0, 3⟩,
   ⟨"miner", [], [⟨0, "iron_ore", 1⟩], 0, 4⟩,
   ⟨"miner", [], [⟨0, "copper_ore", 1⟩], 0, 4⟩,
   ⟨"miner", [], [⟨0, "coal", 1⟩], 0, 5⟩,
   ⟨"furnace", [⟨0, "iron_ore", 2⟩], [⟨0, "iron", 1⟩], 2, 4⟩,
   ⟨"furnace", [⟨0, "copper_ore", 2⟩], [⟨0, "copper", 1⟩], 2, 4⟩,
   ⟨"assembler", [⟨0, "iron", 2⟩], [⟨0, "gear", 1⟩], 3, 3⟩,
   ⟨"assembler", [⟨0, "copper", 1⟩, ⟨1, "gear", 1⟩], [⟨0, "circuit", 1⟩], 4, 5⟩,
   ⟨"boiler", [⟨0, "coal", 1⟩, ⟨1, "water", 5⟩], [⟨0, "steam", 10⟩], 0, 3⟩,
   ⟨"generator", [⟨0, "steam", 5⟩], [], -10, 2⟩]

/-- `getRecipesForMachine(machineId)`. -/
def getRecipesForMachine (machineId : String) : List Recipe :=
  RECIPES.filter (fun r => r.machine = machineId)

-- ── nodeData.ts ──

/-- `PortDirection`. -/
inductive PortDirection
  | input
  | output
deriving DecidableEq

/-- `PortData` — identity, direction, physical type and the optionally
bound resource (the display label is not modelled). -/
structure PortData where
  id : String
  direction : PortDirection
  portType : PortType
  resourceId : Option String
deriving DecidableEq

/-- `NodeData` restricted to the simulation fields (position, title and
geometry are presentation-only). -/
structure NodeData where
  id : String
  inputs : List PortData
  outputs : List PortData
  machineTypeId : Option String
deriving DecidableEq

/-- `ConnectionData` — a directed edge between two node/port id pairs. -/
structure ConnectionData where
  id : String
  fromNodeId : String
  fromPortId : String
  toNodeId : String
  toPortId : String
deriving DecidableEq

-- ── tickEngine.ts ──

/-- `NodeGameState` — the per-node runtime state. -/
structure NodeGameState where
  inputInventory : Inventory
  outputInventory : Inventory
  activeRecipe : Option Recipe
  processingProgress : Int
  machineTypeId : String
  powerConsumed : Int
  powerProduced : Int
  selectedRecipeIndex : Int
  powerSatisfied : Bool
deriving DecidableEq

/-- The `TRANSPORT_AMOUNT` table: item = 1, liquid = 10, gas = 10,
power = 0. -/
def transportAmount : PortType → Int
  | PortType.item => 1
  | PortType.liquid => 10
  | PortType.gas => 10
  | PortType.power => 0

/-- `TickEngine.registerNode` — creates a fresh runtime state for the node
id, with both inventory capacities taken from the machine catalog
(default 20 when the machine type is unknown). -/
def registerNode (states : List (String × NodeGameState))
    (nodeId : String) (machineTypeId : String) :
    List (String × NodeGameState) :=
  let cap := match mapGet MACHINE_TYPES machineTypeId with
    | some def0 => def0.inventoryCapacity
    | none => 20
  mapSet states nodeId
    { inputInventory := ⟨[], cap⟩
      outputInventory := ⟨[], cap⟩
      activeRecipe := none
      processingProgress := 0
      machineTypeId := machineTypeId
      powerConsumed := 0
      powerProduced := 0
      selectedRecipeIndex := -1
      powerSatisfied := true }

/-- `TickEngine.isResourceCompatible` — the resource's kind matches the
port's physical type. -/
def isResourceCompatible (resourceId : String) (port : PortData) : Bool :=
  match getResourceType resourceId with
  | none => false
  | some t => decide (resourceTypeToPortType t = port.portType)

/-- `TickEngine.transportResource` — move up to `amount` of `resourceId`
from the source's output inventory to the destination's input inventory;
the destination accepts at most what it has room for and the source
removes exactly what was accepted. -/
def transportResource (src dst : NodeGameState) (resourceId : String)
    (amount : Int) : NodeGameState × NodeGameState :=
  let available := src.outputInventory.getAmount resourceId
  let toTransport := min available amount
  if toTransport ≤ 0 then (src, dst)
  else
    let res := dst.inputInventory.add resourceId toTransport
    let dst' := { dst with inputInventory := res.2 }
    if 0 < res.1 then
      ({ src with outputInventory := (src.outputInventory.remove resourceId res.1).2 },
       dst')
    else (src, dst')

/-- The per-connection body of `TickEngine.transportPhase`, after the
endpoint lookups succeeded: skip `power` ports; a bound port moves only
its bound resource; an unbound port scans the source's output stacks for
the first resource compatible with the port type and moves that one. -/
def transportConn (fromPort : PortData) (src dst : NodeGameState) :
    NodeGameState × NodeGameState :=
  if fromPort.portType = PortType.power then (src, dst)
  else
    let amount := transportAmount fromPort.portType
    match fromPort.resourceId with
    | some rid => transportResource src dst rid amount
    | none =>
        match src.outputInventory.toStacks.find?
            (fun stack => isResourceCompatible stack.resourceId fromPort) with
        | some stack => transportResource src dst stack.resourceId amount
        | none => (src, dst)

/-- `TickEngine.bufferTransfer` — a buffer machine moves each input stack
(up to 5 units) to its output inventory, limited by room there. -/
def bufferTransfer (s : NodeGameState) : NodeGameState :=
  s.inputInventory.toStacks.foldl
    (fun acc stack =>
      let toTransfer := min stack.amount 5
      let res := acc.outputInventory.add stack.resourceId toTransfer
      let acc := { acc with outputInventory := res.2 }
      if 0 < res.1 then
        { acc with inputInventory := (acc.inputInventory.remove stack.resourceId res.1).2 }
      else acc)
    s

/-- `TickEngine.hasRecipeInputs`. -/
def hasRecipeInputs (s : NodeGameState) (r : Recipe) : Bool :=
  if r.inputs.length = 0 then true
  else r.inputs.all (fun b => s.inputInventory.has b.resourceId b.amount)

/-- `TickEngine.consumeRecipeInputs`. -/
def consumeRecipeInputs (s : NodeGameState) (r : Recipe) : NodeGameState :=
  r.inputs.foldl
    (fun acc b =>
      { acc with inputInventory := (acc.inputInventory.remove b.resourceId b.amount).2 })
    s

/-- The candidate scan of `TickEngine.processPhase`: pick the first
candidate that passes the power gate and whose inputs are present,
consume the inputs and start it. -/
def tryStartRecipe : List Recipe → NodeGameState → NodeGameState
  | [], s => s
  | r :: rest, s =>
      if 0 < r.powerPerTick ∧ s.powerSatisfied = false then tryStartRecipe rest s
      else if hasRecipeInputs s r then
        { consumeRecipeInputs s r with
            activeRecipe := some r, processingProgress := 0 }
      else tryStartRecipe rest s

/-- The output-deposit loop on recipe completion: each output binding is
added to the output inventory through `Inventory.add`. -/
def addOutputs (outs : List RecipePortBinding) (inv : Inventory) : Inventory :=
  outs.foldl (fun acc b => (acc.add b.resourceId b.amount).2) inv

/-- The power-bookkeeping assignments of the active-recipe branch of
`processPhase`: record this tick's consumed or produced power from the
recipe's delta. -/
def recordPower (r : Recipe) (s : NodeGameState) : NodeGameState :=
  if 0 < r.powerPerTick then { s with powerConsumed := r.powerPerTick }
  else if r.powerPerTick < 0 then { s with powerProduced := |r.powerPerTick| }
  else s

/-- The completion check of the active-recipe branch of `processPhase`:
when progress has reached the duration, deposit every output binding into
the output inventory, clear the recipe and reset progress. -/
def completeOrContinue (r : Recipe) (s : NodeGameState) : NodeGameState :=
  if r.ticks ≤ s.processingProgress then
    { s with outputInventory := addOutputs r.outputs s.outputInventory
             activeRecipe := none
             processingProgress := 0 }
  else s

/-- The active-recipe branch of `processPhase`: stall when the recipe
consumes power and the node is unsatisfied; otherwise advance progress,
record power, and complete when the duration is reached. -/
def processActive (r : Recipe) (s : NodeGameState) : NodeGameState :=
  if 0 < r.powerPerTick ∧ s.powerSatisfied = false then s
  else
    completeOrContinue r
      (recordPower r { s with processingProgress := s.processingProgress + 1 })

/-- The idle branch of `processPhase`: the candidate list is the single
selected recipe when the selection index is in range, otherwise every
recipe of the machine; scan it for the first startable recipe. -/
def processIdle (recipes : List Recipe) (s : NodeGameState) : NodeGameState :=
  tryStartRecipe
    (if s.selectedRecipeIndex < 0 then recipes
     else match recipes.get? s.selectedRecipeIndex.toNat with
       | some r => [r]
       | none => recipes)
    s

/-- The per-node body of `TickEngine.processPhase`, with the machine's
recipe list passed in: a machine with no recipes buffers; otherwise the
active recipe advances (or stalls), or a new recipe is searched for. -/
def processNode (recipes : List Recipe) (s : NodeGameState) : NodeGameState :=
  if recipes.length = 0 then bufferTransfer s
  else
    match s.activeRecipe with
    | some r => processActive r s
    | none => processIdle recipes s

/-- The `processPhase` step for one node, looking the machine's recipes up
in the catalog exactly as the engine does. -/
def processPhaseNode (s : NodeGameState) : NodeGameState :=
  processNode (getRecipesForMachine s.machineTypeId) s

/-- `TickEngine.setSelectedRecipe(nodeId, recipeIndex)` — records the
selection and interrupts any active recipe. -/
def setSelectedRecipe (states : List (String × NodeGameState))
    (nodeId : String) (recipeIndex : Int) : List (String × NodeGameState) :=
  match mapGet states nodeId with
  | none => states
  | some s =>
      let s1 := { s with selectedRecipeIndex := recipeIndex }
      let s2 := match s.activeRecipe with
        | some _ => { s1 with activeRecipe := none, processingProgress := 0 }
        | none => s1
      mapSet states nodeId s2

-- ── nodeData.ts: identity generation and (de)serialization ──

/-- One decimal digit as a character (codepoint 48 + digit). -/
def digitChar (d : Nat) : Char :=
  Char.ofNat (48 + d)

/-- Fueled decimal rendering (most significant digit first), mirroring how
the template literal renders the numeric counter. -/
def decCharsCore : Nat → Nat → List Char → List Char
  | 0, _, acc => acc
  | fuel + 1, n, acc =>
      let d := digitChar (n % 10)
      if n < 10 then d :: acc else decCharsCore fuel (n / 10) (d :: acc)

/-- Decimal rendering of a natural number. -/
def decChars (n : Nat) : List Char :=
  decCharsCore (n + 1) n []

/-- An identity string of the form `<kind>_<integer>`. -/
def mkId (kind : String) (n : Nat) : String :=
  ⟨kind.data ++ '_' :: decChars n⟩

/-- The three module-level identity counters of `nodeData.ts`. -/
structure GenState where
  node : Nat
  port : Nat
  conn : Nat
deriving DecidableEq

/-- `generateNodeId()` — pre-increments the node counter. -/
def generateNodeId (g : GenState) : String × GenState :=
  (mkId "node" (g.node + 1), { g with node := g.node + 1 })

/-- `generatePortId()`. -/
def generatePortId (g : GenState) : String × GenState :=
  (mkId "port" (g.port + 1), { g with port := g.port + 1 })

/-- `generateConnectionId()`. -/
def generateConnectionId (g : GenState) : String × GenState :=
  (mkId "conn" (g.conn + 1), { g with conn := g.conn + 1 })

/-- The value of a decimal digit character, `none` for anything else. -/
def digitVal (c : Char) : Option Nat :=
  if 48 ≤ c.toNat ∧ c.toNat ≤ 57 then some (c.toNat - 48) else none

/-- Accumulating decimal parse of a character list. -/
def decValCore : List Char → Nat → Option Nat
  | [], acc => some acc
  | c :: cs, acc =>
      match digitVal c with
      | some d => decValCore cs (acc * 10 + d)
      | none => none

/-- Decimal parse; empty input is not a number. -/
def decimalValue : List Char → Option Nat
  | [] => none
  | cs => decValCore cs 0

/-- The suffix extraction `parseInt(id.replace(prefix, ""), 10)` of
`deserializeGraph`, as it behaves on the persisted id format
`<kind>_<integer>` (the prefix occurs at the start and the remainder is a
pure decimal numeral; anything else is not a number and is skipped). -/
def parseIdSuffix (pre : String) (id : String) : Option Nat :=
  if pre.data.isPrefixOf id.data then decimalValue (id.data.drop pre.data.length)
  else none

/-- The persisted `GraphSaveData` (already parsed from JSON). -/
structure GraphSaveData where
  nodes : List NodeData
  connections : List ConnectionData
deriving DecidableEq

/-- The running-maximum step of the suffix scans in `deserializeGraph`. -/
def maxSuffixStep (pre : String) (acc : Nat) (id : String) : Nat :=
  match parseIdSuffix pre id with
  | some num => if acc < num then num else acc
  | none => acc

/-- `deserializeGraph` — the counter-advancing part: each of the three
identity counters is raised to the maximum numeric suffix observed in the
loaded data for its kind (the parsed data itself is returned unchanged). -/
def deserializeGraph (g : GenState) (data : GraphSaveData) : GenState :=
  let maxNode := data.nodes.foldl (fun acc n => maxSuffixStep "node_" acc n.id) 0
  let maxPort := data.nodes.foldl
    (fun acc n =>
      (n.inputs ++ n.outputs).foldl (fun acc2 p => maxSuffixStep "port_" acc2 p.id) acc)
    0
  let maxConn := data.connections.foldl
    (fun acc c => maxSuffixStep "conn_" acc c.id) 0
  { node := max g.node maxNode
    port := max g.port maxPort
    conn := max g.conn maxConn }

-- ── nodeManager.ts ──

/-- A `PortView` as the connection logic sees it: the owning node id and
the port's data. -/
structure PortRef where
  nodeId : String
  portData : PortData
deriving DecidableEq

/-- The duplicate-connection scan of `canConnect`. -/
def dupExists (srcRef dstRef : PortRef) (connections : List ConnectionData) :
    Bool :=
  connections.any (fun c =>
    decide (c.fromNodeId = srcRef.nodeId) &&
    decide (c.fromPortId = srcRef.portData.id) &&
    decide (c.toNodeId = dstRef.nodeId) &&
    decide (c.toPortId = dstRef.portData.id))

/-- The resource-compatibility early return of `canConnect`: a mismatch of
two bound resource identities. -/
def resourceMismatch (srcRef dstRef : PortRef) : Bool :=
  match srcRef.portData.resourceId, dstRef.portData.resourceId with
  | some r1, some r2 => decide (¬ r1 = r2)
  | _, _ => false

/-- `NodeManager.canConnect` — the staged connection-legality check:
different nodes, same port type, different directions (normalizing so the
output port is the source), resource compatibility, no duplicate. -/
def canConnect (a b : PortRef) (connections : List ConnectionData) : Bool :=
  if a.nodeId = b.nodeId then false
  else if ¬ a.portData.portType = b.portData.portType then false
  else if a.portData.direction = b.portData.direction then false
  else
    let srcRef := if a.portData.direction = PortDirection.output then a else b
    let dstRef := if a.portData.direction = PortDirection.input then a else b
    if resourceMismatch srcRef dstRef then false
    else ! dupExists srcRef dstRef connections

/-- The live graph owned by `NodeManager`, together with the identity
counters the data factories draw from. -/
structure ManagerState where
  nodes : List NodeData
  connections : List ConnectionData
  gen : GenState
deriving DecidableEq

/-- `createConnectionData` — a fresh connection record. -/
def createConnectionData (g : GenState)
    (fromNodeId fromPortId toNodeId toPortId : String) :
    ConnectionData × GenState :=
  let r := generateConnectionId g
  (⟨r.1, fromNodeId, fromPortId, toNodeId, toPortId⟩, r.2)

/-- `NodeManager.connect` — builds a connection record from the four ids
and commits it to the graph (`addConnection` pushes it onto the list). -/
def connect (st : ManagerState)
    (fromNodeId fromPortId toNodeId toPortId : String) :
    ConnectionData × ManagerState :=
  let r := createConnectionData st.gen fromNodeId fromPortId toNodeId toPortId
  (r.1, { st with connections := st.connections ++ [r.1], gen := r.2 })

/-- The connection-committing tail of `NodeManager.onPortDragEnd`: run
`canConnect` on the two ports, and only on success normalize the pair so
the output port comes first and call `connect`. -/
def tryConnectPorts (a b : PortRef) (st : ManagerState) : ManagerState :=
  if canConnect a b st.connections then
    let srcRef := if a.portData.direction = PortDirection.input then b else a
    let dstRef := if a.portData.direction = PortDirection.input then a else b
    (connect st srcRef.nodeId srcRef.portData.id dstRef.nodeId
      dstRef.portData.id).2
  else st

-- ── Specification-side definitions ──

/-- The connection-legality protocol exactly as the specification words it:
(1) different nodes; (2) identical port types; (3) differing directions,
the pair normalized so the output-direction port is the source; (4) bound
resource identities must agree when both are present; (5) no identical
(fromNode, fromPort, toNode, toPort) connection exists already. -/
def canConnectSpec (a b : PortRef) (connections : List ConnectionData) : Bool :=
  decide (¬ a.nodeId = b.nodeId) &&
  decide (a.portData.portType = b.portData.portType) &&
  decide (¬ a.portData.direction = b.portData.direction) &&
  (let srcRef := if a.portData.direction = PortDirection.output then a else b
   let dstRef := if a.portData.direction = PortDirection.output then b else a
   (match srcRef.portData.resourceId, dstRef.portData.resourceId with
    | some r1, some r2 => decide (r1 = r2)
    | _, _ => true) &&
   decide (¬ ∃ c ∈ connections,
      c.fromNodeId = srcRef.nodeId ∧ c.fromPortId = srcRef.portData.id ∧
      c.toNodeId = dstRef.nodeId ∧ c.toPortId = dstRef.portData.id))

/-- The representation invariant of an `Inventory`: distinct keys (a JS
`Map` cannot repeat a key), strictly positive stored quantities (a zero
entry is deleted), and the capacity bound when bounded. -/
structure InvWF (inv : Inventory) : Prop where
  nodupKeys : (inv.items.map Prod.fst).Nodup
  posEntries : ∀ p ∈ inv.items, 0 < p.2
  capBound : 0 < inv.maxCapacity → inv.totalAmount ≤ inv.maxCapacity

/-- One call against an `Inventory`. -/
inductive InvOp
  | add (id : String) (amount : Int)
  | remove (id : String) (amount : Int)

/-- Run one call, keeping the updated inventory. -/
def applyInvOp (inv : Inventory) : InvOp → Inventory
  | InvOp.add id amount => (inv.add id amount).2
  | InvOp.remove id amount => (inv.remove id amount).2

/-- Run a call sequence from a given inventory. -/
def applyInvOps (inv : Inventory) (ops : List InvOp) : Inventory :=
  ops.foldl applyInvOp inv

/-- All identities occurring in a persisted graph. -/
def graphIds (data : GraphSaveData) : List String :=
  data.nodes.map NodeData.id ++
  data.nodes.flatMap (fun n => (n.inputs ++ n.outputs).map PortData.id) ++
  data.connections.map ConnectionData.id

/-- A well-formed persisted graph: every identity has the documented
`<kind>_<integer>` shape. -/
def WellFormedGraph (data : GraphSaveData) : Prop :=
  (∀ n ∈ data.nodes, ∃ k, n.id = mkId "node" k) ∧
  (∀ n ∈ data.nodes, ∀ p ∈ n.inputs ++ n.outputs, ∃ k, p.id = mkId "port" k) ∧
  (∀ c ∈ data.connections, ∃ k, c.id = mkId "conn" k)

-- ── Concrete fixtures used to exercise the theorems ──

/-- The furnace iron-smelting recipe, as listed in `RECIPES`. -/
def recipeFurnaceIron : Recipe :=
  ⟨"furnace", [⟨0, "iron_ore", 2⟩], [⟨0, "iron", 1⟩], 2, 4⟩

/-- A furnace two ticks into smelting, with no power this tick. -/
def furnaceStalled : NodeGameState :=
  { inputInventory := ⟨[], 30⟩
    outputInventory := ⟨[], 30⟩
    activeRecipe := some recipeFurnaceIron
    processingProgress := 2
    machineTypeId := "furnace"
    powerConsumed := 0
    powerProduced := 0
    selectedRecipeIndex := -1
    powerSatisfied := false }

/-- A powered furnace one tick from completion whose output inventory is
already at capacity. -/
def furnaceFullOutput : NodeGameState :=
  { inputInventory := ⟨[], 30⟩
    outputInventory := ⟨[("iron", 30)], 30⟩
    activeRecipe := some recipeFurnaceIron
    processingProgress := 3
    machineTypeId := "furnace"
    powerConsumed := 0
    powerProduced := 0
    selectedRecipeIndex := -1
    powerSatisfied := true }

/-- An unbounded inventory holding three iron ore. -/
def oreInventory : Inventory := ⟨[("iron_ore", 3)], 0⟩

/-- A request list naming the same resource twice, jointly exceeding the
stock although each stack alone is covered. -/
def duplicateRequest : List ResourceStack :=
  [⟨"iron_ore", 2⟩, ⟨"iron_ore", 2⟩]

/-- An output-direction item port on node 1. -/
def outPortNode1 : PortRef :=
  ⟨"node_1", ⟨"port_1", PortDirection.output, PortType.item, none⟩⟩

/-- An input-direction item port on the same node 1. -/
def inPortNode1 : PortRef :=
  ⟨"node_1", ⟨"port_2", PortDirection.input, PortType.item, none⟩⟩

/-- An input-direction item port on node 2. -/
def inPortNode2 : PortRef :=
  ⟨"node_2", ⟨"port_3", PortDirection.input, PortType.item, none⟩⟩

/-- A manager owning one empty graph. -/
def emptyManager : ManagerState := ⟨[], [], ⟨2, 3, 0⟩⟩

/-- A miner one tick from finishing a rock cycle. -/
def minerNearDone : NodeGameState :=
  { inputInventory := ⟨[], 20⟩
    outputInventory := ⟨[], 20⟩
    activeRecipe := some ⟨"miner", [], [⟨0, "rock", 1⟩], 0, 3⟩
    processingProgress := 2
    machineTypeId := "miner"
    powerConsumed := 0
    powerProduced := 0
    selectedRecipeIndex := -1
    powerSatisfied := true }

/-- A node state map holding the near-done miner under `node_1`. -/
def minerStates : List (String × NodeGameState) :=
  [("node_1", minerNearDone)]

/-- A storage node holding five rocks in its output buffer. -/
def storageSource : NodeGameState :=
  { inputInventory := ⟨[], 100⟩
    outputInventory := ⟨[("rock", 5)], 100⟩
    activeRecipe := none
    processingProgress := 0
    machineTypeId := "storage"
    powerConsumed := 0
    powerProduced := 0
    selectedRecipeIndex := -1
    powerSatisfied := true }

/-- A storage node with nineteen rocks already buffered in a capacity-20
input inventory. -/
def storageDest : NodeGameState :=
  { inputInventory := ⟨[("rock", 19)], 20⟩
    outputInventory := ⟨[], 20⟩
    activeRecipe := none
    processingProgress := 0
    machineTypeId := "storage"
    powerConsumed := 0
    powerProduced := 0
    selectedRecipeIndex := -1
    powerSatisfied := true }

/-- An output item port bound to `rock`. -/
def rockOutPort : PortData :=
  ⟨"port_1", PortDirection.output, PortType.item, some "rock"⟩

/-- A persisted graph with one node (`node_7`), one port (`port_9`) and
one connection (`conn_4`). -/
def sampleSave : GraphSaveData :=
  ⟨[⟨mkId "node" 7, [⟨mkId "port" 9, PortDirection.input, PortType.item, none⟩],
     [], some "storage"⟩],
   [⟨mkId "conn" 4, "node_7", "port_9", "node_7", "port_9"⟩]⟩

-- ── Association-map lemmas ──

theorem mapGet_cons {α : Type} (k0 : String) (v0 : α) (rest : List (String × α))
    (k : String) :
    mapGet ((k0, v0) :: rest) k = if k0 = k then some v0 else mapGet rest k :=
  rfl

theorem mapSet_cons {α : Type} (k0 : String) (v0 : α) (rest : List (String × α))
    (k : String) (v : α) :
    mapSet ((k0, v0) :: rest) k v =
      if k0 = k then (k0, v) :: rest else (k0, v0) :: mapSet rest k v :=
  rfl

theorem mapDelete_cons {α : Type} (k0 : String) (v0 : α)
    (rest : List (String × α)) (k : String) :
    mapDelete ((k0, v0) :: rest) k =
      if k0 = k then mapDelete rest k else (k0, v0) :: mapDelete rest k := by
  by_cases h : k0 = k <;> simp [mapDelete, List.filter_cons, h]

theorem mapSum_cons (p : String × Int) (rest : List (String × Int)) :
    mapSum (p :: rest) = p.2 + mapSum rest :=
  rfl

theorem mapGet_set_self {α : Type} (l : List (String × α)) (k : String) (v : α) :
    mapGet (mapSet l k v) k = some v := by
  induction l with
  | nil => simp [mapGet, mapSet]
  | cons p rest ih =>
      obtain ⟨k0, v0⟩ := p
      by_cases h : k0 = k
      · subst h; simp [mapSet_cons, mapGet_cons]
      · simp [mapSet_cons, mapGet_cons, h, ih]

theorem mapGet_set_ne {α : Type} (l : List (String × α)) (k k' : String) (v : α)
    (h : ¬ k' = k) : mapGet (mapSet l k v) k' = mapGet l k' := by
  have h' : ¬ k = k' := fun hh => h hh.symm
  induction l with
  | nil => simp [mapGet, mapSet, h']
  | cons p rest ih =>
      obtain ⟨k0, v0⟩ := p
      by_cases h0 : k0 = k
      · subst h0; simp [mapSet_cons, mapGet_cons, h']
      · by_cases h1 : k0 = k'
        · subst h1; simp [mapSet_cons, mapGet_cons, h0]
        · simp [mapSet_cons, mapGet_cons, h0, h1, ih]

theorem mapGet_delete_self {α : Type} (l : List (String × α)) (k : String) :
    mapGet (mapDelete l k) k = none := by
  induction l with
  | nil => simp [mapGet, mapDelete]
  | cons p rest ih =>
      obtain ⟨k0, v0⟩ := p
      by_cases h : k0 = k
      · simp [mapDelete_cons, h, ih]
      · simp [mapDelete_cons, mapGet_cons, h, ih]

theorem mapGet_delete_ne {α : Type} (l : List (String × α)) (k k' : String)
    (h : ¬ k' = k) : mapGet (mapDelete l k) k' = mapGet l k' := by
  induction l with
  | nil => simp [mapGet, mapDelete]
  | cons p rest ih =>
      obtain ⟨k0, v0⟩ := p
      by_cases h0 : k0 = k
      · subst h0
        have h1 : ¬ k0 = k' := fun hh => h hh.symm
        simp [mapDelete_cons, mapGet_cons, h1, ih]
      · simp [mapDelete_cons, mapGet_cons, h0, ih]

theorem mapSum_set (l : List (String × Int)) (k : String) (v : Int) :
    mapSum (mapSet l k v) = mapSum l + v - ((mapGet l k).getD 0) := by
  induction l with
  | nil => simp [mapSum, mapSet, mapGet]
  | cons p rest ih =>
      obtain ⟨k0, v0⟩ := p
      by_cases h : k0 = k
      · subst h; simp [mapSet_cons, mapSum_cons, mapGet_cons]; ring
      · simp only [mapSet_cons, h, if_neg, if_false, mapSum_cons, mapGet_cons]
        rw [ih]; ring

theorem mapDelete_of_not_mem {α : Type} (l : List (String × α)) (k : String)
    (h : k ∉ l.map Prod.fst) : mapDelete l k = l := by
  induction l with
  | nil => rfl
  | cons p rest ih =>
      obtain ⟨k0, v0⟩ := p
      simp only [List.map_cons, List.mem_cons] at h
      push_neg at h
      have h0 : ¬ k0 = k := fun hk => h.1 hk.symm
      rw [mapDelete_cons, if_neg h0, ih h.2]

theorem mapSum_delete (l : List (String × Int)) (k : String)
    (h : (l.map Prod.fst).Nodup) :
    mapSum (mapDelete l k) = mapSum l - ((mapGet l k).getD 0) := by
  induction l with
  | nil => simp [mapSum, mapDelete, mapGet]
  | cons p rest ih =>
      obtain ⟨k0, v0⟩ := p
      simp only [List.map_cons, List.nodup_cons] at h
      by_cases h0 : k0 = k
      · subst h0
        have hrest : mapDelete rest k0 = rest := mapDelete_of_not_mem rest k0 h.1
        rw [mapDelete_cons, if_pos rfl, hrest, mapSum_cons, mapGet_cons,
          if_pos rfl]
        simp
      · rw [mapDelete_cons, if_neg h0, mapSum_cons, mapSum_cons, mapGet_cons,
          if_neg h0, ih h.2]
        ring

theorem mapGet_mem {α : Type} (l : List (String × α)) (k : String) (v : α)
    (h : mapGet l k = some v) : (k, v) ∈ l := by
  induction l with
  | nil => simp [mapGet] at h
  | cons p rest ih =>
      obtain ⟨k0, v0⟩ := p
      by_cases h0 : k0 = k
      · subst h0
        rw [mapGet_cons, if_pos rfl] at h
        simp at h
        simp [h]
      · rw [mapGet_cons, if_neg h0] at h
        simp [ih h]

theorem mem_mapSet {α : Type} (l : List (String × α)) (k : String) (v : α)
    (p : String × α) (h : p ∈ mapSet l k v) : p = (k, v) ∨ p ∈ l := by
  induction l with
  | nil => simp [mapSet] at h; simp [h]
  | cons q rest ih =>
      obtain ⟨k0, v0⟩ := q
      by_cases h0 : k0 = k
      · subst h0
        rw [mapSet_cons, if_pos rfl] at h
        rcases List.mem_cons.mp h with h1 | h1
        · left; exact h1
        · right; simp [h1]
      · rw [mapSet_cons, if_neg h0] at h
        rcases List.mem_cons.mp h with h1 | h1
        · right; simp [h1]
        · rcases ih h1 with h2 | h2
          · left; exact h2
          · right; simp [h2]

theorem mem_keys_mapSet {α : Type} (l : List (String × α)) (k : String) (v : α)
    (x : String) (h : x ∈ (mapSet l k v).map Prod.fst) :
    x = k ∨ x ∈ l.map Prod.fst := by
  simp only [List.mem_map] at h
  obtain ⟨p, hp, hx⟩ := h
  rcases mem_mapSet l k v p hp with h1 | h1
  · left; rw [← hx, h1]
  · right; exact List.mem_map.mpr ⟨p, h1, hx⟩

theorem nodup_mapSet {α : Type} (l : List (String × α)) (k : String) (v : α)
    (h : (l.map Prod.fst).Nodup) : ((mapSet l k v).map Prod.fst).Nodup := by
  induction l with
  | nil => simp [mapSet]
  | cons p rest ih =>
      obtain ⟨k0, v0⟩ := p
      simp only [List.map_cons, List.nodup_cons] at h
      by_cases h0 : k0 = k
      · subst h0
        rw [mapSet_cons, if_pos rfl]
        simp only [List.map_cons, List.nodup_cons]
        exact h
      · rw [mapSet_cons, if_neg h0]
        simp only [List.map_cons, List.nodup_cons]
        refine ⟨fun hmem => ?_, ih h.2⟩
        rcases mem_keys_mapSet rest k v k0 hmem with h1 | h1
        · exact h0 h1
        · exact h.1 h1

theorem nodup_mapDelete {α : Type} (l : List (String × α)) (k : String)
    (h : (l.map Prod.fst).Nodup) : ((mapDelete l k).map Prod.fst).Nodup := by
  have hsub : List.Sublist (mapDelete l k) l := List.filter_sublist l
  exact List.Nodup.sublist (hsub.map Prod.fst) h

theorem mem_mapDelete {α : Type} (l : List (String × α)) (k : String)
    (p : String × α) (h : p ∈ mapDelete l k) : p ∈ l :=
  List.mem_of_mem_filter h

theorem mapSum_nonneg (l : List (String × Int))
    (h : ∀ p ∈ l, 0 ≤ p.2) : 0 ≤ mapSum l := by
  induction l with
  | nil => simp [mapSum]
  | cons p rest ih =>
      rw [mapSum_cons]
      have h1 := h p (List.mem_cons_self p rest)
      have h2 := ih (fun q hq => h q (List.mem_cons_of_mem p hq))
      omega

-- ── Inventory lemmas ──

theorem Inventory.getAmount_nonneg (inv : Inventory) (id : String)
    (wf : InvWF inv) : 0 ≤ inv.getAmount id := by
  unfold Inventory.getAmount
  cases h : mapGet inv.items id with
  | none => simp
  | some v =>
      have := wf.posEntries (id, v) (mapGet_mem inv.items id v h)
      simp at this ⊢
      omega

theorem Inventory.totalAmount_nonneg (inv : Inventory) (wf : InvWF inv) :
    0 ≤ inv.totalAmount :=
  mapSum_nonneg inv.items (fun p hp => le_of_lt (wf.posEntries p hp))

theorem Inventory.add_cases (inv : Inventory) (id : String) (a : Int) :
    inv.add id a = (0, inv) ∨
    ∃ v, 0 < v ∧ v ≤ a ∧
      (0 < inv.maxCapacity → v ≤ inv.maxCapacity - inv.totalAmount) ∧
      inv.add id a =
        (v, { inv with items := mapSet inv.items id (inv.getAmount id + v) }) := by
  unfold Inventory.add
  by_cases h1 : a ≤ 0
  · left; simp [h1]
  · by_cases hc : 0 < inv.maxCapacity
    · by_cases h2 : min a (inv.maxCapacity - inv.totalAmount) ≤ 0
      · left; simp [h1, hc, h2]
      · right
        refine ⟨min a (inv.maxCapacity - inv.totalAmount), by omega,
          min_le_left _ _, fun _ => min_le_right _ _, ?_⟩
        simp [h1, hc, h2]
    · have h2 : ¬ a ≤ 0 := h1
      right
      refine ⟨a, by omega, le_refl a, fun hcc => absurd hcc hc, ?_⟩
      simp [h1, hc, h2]

theorem Inventory.add_spec (inv : Inventory) (id : String) (a : Int) :
    (inv.add id a).2.maxCapacity = inv.maxCapacity ∧
    0 ≤ (inv.add id a).1 ∧
    (inv.add id a).1 ≤ max a 0 ∧
    (inv.add id a).2.getAmount id = inv.getAmount id + (inv.add id a).1 ∧
    (∀ x, ¬ x = id → (inv.add id a).2.getAmount x = inv.getAmount x) ∧
    (inv.add id a).2.totalAmount = inv.totalAmount + (inv.add id a).1 ∧
    (0 < inv.maxCapacity →
      inv.totalAmount ≤ inv.maxCapacity →
      (inv.add id a).1 ≤ inv.maxCapacity - inv.totalAmount) := by
  rcases Inventory.add_cases inv id a with h | ⟨v, hv, hva, hvc, h⟩
  · rw [h]
    exact ⟨rfl, le_refl 0, le_max_right a 0, by simp, fun x _ => rfl, by simp,
      fun _ hc => by simp; omega⟩
  · rw [h]
    refine ⟨rfl, le_of_lt hv, le_trans hva (le_max_left a 0), ?_, ?_, ?_,
      fun hcap _ => hvc hcap⟩
    · show (mapGet (mapSet inv.items id (inv.getAmount id + v)) id).getD 0 =
        inv.getAmount id + v
      rw [mapGet_set_self]
      rfl
    · intro x hx
      show (mapGet (mapSet inv.items id (inv.getAmount id + v)) x).getD 0 =
        inv.getAmount x
      rw [mapGet_set_ne _ _ _ _ hx]
      rfl
    · show mapSum (mapSet inv.items id (inv.getAmount id + v)) =
        inv.totalAmount + v
      rw [mapSum_set]
      show inv.totalAmount + (inv.getAmount id + v) - inv.getAmount id =
        inv.totalAmount + v
      omega

theorem Inventory.add_wf (inv : Inventory) (id : String) (a : Int)
    (wf : InvWF inv) : InvWF (inv.add id a).2 := by
  rcases Inventory.add_cases inv id a with h | ⟨v, hv, hva, hvc, h⟩
  · rw [h]; exact wf
  · rw [h]
    refine ⟨nodup_mapSet _ _ _ wf.nodupKeys, ?_, ?_⟩
    · intro p hp
      rcases mem_mapSet _ _ _ _ hp with h1 | h1
      · have := inv.getAmount_nonneg id wf
        rw [h1]
        simp only []
        omega
      · exact wf.posEntries p h1
    · intro hcap
      show mapSum (mapSet inv.items id (inv.getAmount id + v)) ≤ inv.maxCapacity
      rw [mapSum_set]
      have := hvc hcap
      show inv.totalAmount + (inv.getAmount id + v) - inv.getAmount id ≤
        inv.maxCapacity
      omega

theorem Inventory.remove_cases (inv : Inventory) (id : String) (a : Int) :
    inv.remove id a = (0, inv) ∨
    ∃ v, 0 < v ∧ v = min (inv.getAmount id) a ∧
      ((inv.getAmount id - v = 0 ∧
          inv.remove id a = (v, { inv with items := mapDelete inv.items id })) ∨
       (0 < inv.getAmount id - v ∧
          inv.remove id a =
            (v, { inv with items := mapSet inv.items id (inv.getAmount id - v) }))) := by
  unfold Inventory.remove
  by_cases h1 : min (inv.getAmount id) a ≤ 0
  · left; simp [h1]
  · right
    refine ⟨min (inv.getAmount id) a, by omega, rfl, ?_⟩
    by_cases h2 : inv.getAmount id - min (inv.getAmount id) a ≤ 0
    · left
      constructor
      · have := min_le_left (inv.getAmount id) a
        omega
      · simp [h1, h2]
    · right
      refine ⟨by omega, ?_⟩
      simp [h1, h2]

theorem Inventory.remove_spec (inv : Inventory) (id : String) (a : Int) :
    (inv.remove id a).2.maxCapacity = inv.maxCapacity ∧
    0 ≤ (inv.remove id a).1 ∧
    (inv.remove id a).1 ≤ max a 0 ∧
    (inv.remove id a).1 ≤ max (inv.getAmount id) 0 ∧
    (inv.remove id a).2.getAmount id = inv.getAmount id - (inv.remove id a).1 ∧
    (∀ x, ¬ x = id → (inv.remove id a).2.getAmount x = inv.getAmount x) := by
  rcases Inventory.remove_cases inv id a with h | ⟨v, hv, hvmin, h⟩
  · rw [h]
    exact ⟨rfl, le_refl 0, le_max_right a 0, le_max_right _ 0, by simp,
      fun x _ => rfl⟩
  · have hle1 : v ≤ a := hvmin ▸ min_le_right _ _
    have hle2 : v ≤ inv.getAmount id := hvmin ▸ min_le_left _ _
    rcases h with ⟨hz, h⟩ | ⟨hz, h⟩
    · rw [h]
      refine ⟨rfl, le_of_lt hv, by omega, by omega, ?_, ?_⟩
      · show (mapGet (mapDelete inv.items id) id).getD 0 =
          inv.getAmount id - v
        rw [mapGet_delete_self]
        show (0 : Int) = inv.getAmount id - v
        omega
      · intro x hx
        show (mapGet (mapDelete inv.items id) x).getD 0 = inv.getAmount x
        rw [mapGet_delete_ne _ _ _ hx]
        rfl
    · rw [h]
      refine ⟨rfl, le_of_lt hv, by omega, by omega, ?_, ?_⟩
      · show (mapGet (mapSet inv.items id (inv.getAmount id - v)) id).getD 0 =
          inv.getAmount id - v
        rw [mapGet_set_self]
        rfl
      · intro x hx
        show (mapGet (mapSet inv.items id (inv.getAmount id - v)) x).getD 0 =
          inv.getAmount x
        rw [mapGet_set_ne _ _ _ _ hx]
        rfl

theorem Inventory.remove_total (inv : Inventory) (id : String) (a : Int)
    (hnd : (inv.items.map Prod.fst).Nodup) :
    (inv.remove id a).2.totalAmount = inv.totalAmount - (inv.remove id a).1 := by
  rcases Inventory.remove_cases inv id a with h | ⟨v, hv, hvmin, h⟩
  · rw [h]; simp
  · rcases h with ⟨hz, h⟩ | ⟨hz, h⟩
    · rw [h]
      show mapSum (mapDelete inv.items id) = inv.totalAmount - v
      rw [mapSum_delete _ _ hnd]
      show inv.totalAmount - inv.getAmount id = inv.totalAmount - v
      omega
    · rw [h]
      show mapSum (mapSet inv.items id (inv.getAmount id - v)) =
        inv.totalAmount - v
      rw [mapSum_set]
      show inv.totalAmount + (inv.getAmount id - v) - inv.getAmount id =
        inv.totalAmount - v
      omega

theorem Inventory.remove_wf (inv : Inventory) (id : String) (a : Int)
    (wf : InvWF inv) : InvWF (inv.remove id a).2 := by
  rcases Inventory.remove_cases inv id a with h | ⟨v, hv, hvmin, hc⟩
  · rw [h]; exact wf
  · rcases hc with ⟨hz, h⟩ | ⟨hz, h⟩
    · rw [h]
      refine ⟨nodup_mapDelete _ _ wf.nodupKeys, ?_, ?_⟩
      · intro p hp
        exact wf.posEntries p (mem_mapDelete _ _ _ hp)
      · intro hcap
        have hc1 := wf.capBound hcap
        have hc2 := inv.getAmount_nonneg id wf
        show mapSum (mapDelete inv.items id) ≤ inv.maxCapacity
        rw [mapSum_delete _ _ wf.nodupKeys]
        show inv.totalAmount - inv.getAmount id ≤ inv.maxCapacity
        omega
    · rw [h]
      refine ⟨nodup_mapSet _ _ _ wf.nodupKeys, ?_, ?_⟩
      · intro p hp
        rcases mem_mapSet _ _ _ _ hp with h1 | h1
        · rw [h1]; simpa using hz
        · exact wf.posEntries p h1
      · intro hcap
        have hc1 := wf.capBound hcap
        show mapSum (mapSet inv.items id (inv.getAmount id - v)) ≤
          inv.maxCapacity
        rw [mapSum_set]
        show inv.totalAmount + (inv.getAmount id - v) - inv.getAmount id ≤
          inv.maxCapacity
        omega

-- ── Invariant preservation across call sequences ──

theorem applyInvOp_wf_cap (inv : Inventory) (op : InvOp) (wf : InvWF inv) :
    InvWF (applyInvOp inv op) ∧ (applyInvOp inv op).maxCapacity = inv.maxCapacity := by
  cases op with
  | add id amount =>
      exact ⟨Inventory.add_wf inv id amount wf, (Inventory.add_spec inv id amount).1⟩
  | remove id amount =>
      exact ⟨Inventory.remove_wf inv id amount wf, (Inventory.remove_spec inv id amount).1⟩

theorem applyInvOps_wf_cap (inv : Inventory) (ops : List InvOp) (wf : InvWF inv) :
    InvWF (applyInvOps inv ops) ∧
    (applyInvOps inv ops).maxCapacity = inv.maxCapacity := by
  induction ops generalizing inv with
  | nil => exact ⟨wf, rfl⟩
  | cons op rest ih =>
      have h := applyInvOp_wf_cap inv op wf
      have h2 := ih (applyInvOp inv op) h.1
      exact ⟨h2.1, h2.2.trans h.2⟩

-- ── Claim C6 ──

/-- C6: starting from the empty inventory, after any sequence of `add` and
`remove` calls the total is non-negative, the total never exceeds
`maxCapacity` whenever `maxCapacity > 0`, and no stored entry with
quantity zero persists. -/
theorem claim_C6_inventory_invariants (cap : Int) (ops : List InvOp) :
    0 ≤ (applyInvOps ⟨[], cap⟩ ops).totalAmount ∧
    (0 < cap → (applyInvOps ⟨[], cap⟩ ops).totalAmount ≤ cap) ∧
    (∀ p ∈ (applyInvOps ⟨[], cap⟩ ops).items, ¬ p.2 = 0) := by
  have wf0 : InvWF ⟨[], cap⟩ := by
    refine ⟨by simp, by simp, fun h => ?_⟩
    have h2 : (0 : Int) < cap := h
    show mapSum [] ≤ cap
    simp [mapSum]
    omega
  obtain ⟨wf, hcap⟩ := applyInvOps_wf_cap ⟨[], cap⟩ ops wf0
  refine ⟨Inventory.totalAmount_nonneg _ wf, fun h => ?_, fun p hp => ?_⟩
  · have := wf.capBound (by rw [hcap]; exact h)
    rw [hcap] at this
    exact this
  · have := wf.posEntries p hp
    omega

/-- Evaluation of C6 on a concrete call sequence. -/
theorem claim_C6_witness :
    0 ≤ (applyInvOps ⟨[], 10⟩
      [InvOp.add "iron_ore" 7, InvOp.remove "iron_ore" 3]).totalAmount ∧
    (0 < (10 : Int) → (applyInvOps ⟨[], 10⟩
      [InvOp.add "iron_ore" 7, InvOp.remove "iron_ore" 3]).totalAmount ≤ 10) ∧
    (∀ p ∈ (applyInvOps ⟨[], 10⟩
      [InvOp.add "iron_ore" 7, InvOp.remove "iron_ore" 3]).items, ¬ p.2 = 0) :=
  claim_C6_inventory_invariants 10
    [InvOp.add "iron_ore" 7, InvOp.remove "iron_ore" 3]

-- ── Processing-phase bridge lemmas ──

theorem processNode_active (recipes : List Recipe) (s : NodeGameState)
    (r : Recipe) (hlen : ¬ recipes.length = 0)
    (hact : s.activeRecipe = some r) :
    processNode recipes s = processActive r s := by
  unfold processNode
  rw [if_neg hlen, hact]

theorem recordPower_fields (r : Recipe) (s : NodeGameState) :
    (recordPower r s).processingProgress = s.processingProgress ∧
    (recordPower r s).inputInventory = s.inputInventory ∧
    (recordPower r s).outputInventory = s.outputInventory ∧
    (recordPower r s).activeRecipe = s.activeRecipe := by
  unfold recordPower
  split_ifs <;> exact ⟨rfl, rfl, rfl, rfl⟩

-- ── Claim C5 ──

/-- C5: a node with an active recipe of positive power delta whose
`powerSatisfied` flag is false is left completely untouched by the
processing phase: progress does not advance and neither inventory
changes. (A node carrying an active recipe always has a recipe-bearing
machine type, which the nonempty-recipes hypothesis records.) -/
theorem claim_C5_power_gating (s : NodeGameState) (r : Recipe)
    (hrec : ¬ getRecipesForMachine s.machineTypeId = [])
    (hact : s.activeRecipe = some r)
    (hpow : 0 < r.powerPerTick)
    (hsat : s.powerSatisfied = false) :
    processPhaseNode s = s := by
  have hlen : ¬ (getRecipesForMachine s.machineTypeId).length = 0 := by
    simpa [List.length_eq_zero] using hrec
  have hb : processPhaseNode s = processActive r s :=
    processNode_active _ s r hlen hact
  rw [hb]
  unfold processActive
  rw [if_pos ⟨hpow, hsat⟩]

/-- Evaluation of C5 on a concrete stalled furnace. -/
theorem claim_C5_witness :
    ¬ getRecipesForMachine "furnace" = [] ∧
    0 < recipeFurnaceIron.powerPerTick ∧
    processPhaseNode furnaceStalled = furnaceStalled :=
  ⟨by decide, by decide,
    claim_C5_power_gating furnaceStalled recipeFurnaceIron (by decide) rfl
      (by decide) rfl⟩

-- ── Claim C8 ──

/-- C8: selecting a recipe index (any index, including −1) on a registered
node that has an active recipe clears the active recipe, resets progress
to zero, and leaves both inventories untouched (no outputs produced, no
inputs refunded), while recording the new index. -/
theorem claim_C8_select_recipe_clears (states : List (String × NodeGameState))
    (nodeId : String) (idx : Int) (s : NodeGameState) (r : Recipe)
    (h1 : mapGet states nodeId = some s)
    (h2 : s.activeRecipe = some r) :
    ∃ s2, mapGet (setSelectedRecipe states nodeId idx) nodeId = some s2 ∧
      s2.activeRecipe = none ∧
      s2.processingProgress = 0 ∧
      s2.inputInventory = s.inputInventory ∧
      s2.outputInventory = s.outputInventory ∧
      s2.selectedRecipeIndex = idx := by
  obtain ⟨iin, iout, act, prog, mid, pc, pp, sel, ps⟩ := s
  have h2' : act = some r := h2
  subst h2'
  unfold setSelectedRecipe
  rw [h1]
  exact ⟨_, mapGet_set_self _ _ _, rfl, rfl, rfl, rfl, rfl⟩

/-- Evaluation of C8 on a mid-cycle miner. -/
theorem claim_C8_witness :
    ∃ s2, mapGet (setSelectedRecipe minerStates "node_1" 2) "node_1" = some s2 ∧
      s2.activeRecipe = none ∧
      s2.processingProgress = 0 ∧
      s2.inputInventory = minerNearDone.inputInventory ∧
      s2.outputInventory = minerNearDone.outputInventory ∧
      s2.selectedRecipeIndex = 2 :=
  claim_C8_select_recipe_clears minerStates "node_1" 2 minerNearDone
    ⟨"miner", [], [⟨0, "rock", 1⟩], 0, 3⟩ (by decide) rfl

-- ── Claim C10 ──

/-- C10: registering a node creates a fresh runtime state — empty
inventories sized by the machine catalog capacity (with a default of 20
for an unknown machine type), no active recipe, zero progress, automatic
recipe selection (−1) and a satisfied power flag — and the fresh state
replaces any previously registered state for that node id. -/
theorem claim_C10_register_node (states : List (String × NodeGameState))
    (nodeId machineTypeId : String) :
    ∃ capv : Int,
      (mapGet MACHINE_TYPES machineTypeId = none → capv = 20) ∧
      (∀ d, mapGet MACHINE_TYPES machineTypeId = some d →
        capv = d.inventoryCapacity) ∧
      mapGet (registerNode states nodeId machineTypeId) nodeId =
        some { inputInventory := ⟨[], capv⟩
               outputInventory := ⟨[], capv⟩
               activeRecipe := none
               processingProgress := 0
               machineTypeId := machineTypeId
               powerConsumed := 0
               powerProduced := 0
               selectedRecipeIndex := -1
               powerSatisfied := true } := by
  unfold registerNode
  refine ⟨(match mapGet MACHINE_TYPES machineTypeId with
           | some def0 => def0.inventoryCapacity
           | none => 20), fun h => ?_, fun d h => ?_, mapGet_set_self _ _ _⟩
  · rw [h]
  · rw [h]

-- ── Claim C2 ──

theorem addOutputs_spec (outs : List RecipePortBinding) (inv : Inventory) :
    (addOutputs outs inv).maxCapacity = inv.maxCapacity ∧
    (0 < inv.maxCapacity → inv.totalAmount ≤ inv.maxCapacity →
      (addOutputs outs inv).totalAmount ≤ inv.maxCapacity) := by
  induction outs generalizing inv with
  | nil => exact ⟨rfl, fun _ h => h⟩
  | cons b rest ih =>
      have hspec := Inventory.add_spec inv b.resourceId b.amount
      obtain ⟨ih1, ih2⟩ := ih (inv.add b.resourceId b.amount).2
      constructor
      · show (addOutputs rest (inv.add b.resourceId b.amount).2).maxCapacity =
          inv.maxCapacity
        rw [ih1, hspec.1]
      · intro hc ht
        have h1 : 0 < (inv.add b.resourceId b.amount).2.maxCapacity := by
          rw [hspec.1]; exact hc
        have h2 : (inv.add b.resourceId b.amount).2.totalAmount ≤
            (inv.add b.resourceId b.amount).2.maxCapacity := by
          rw [hspec.1]
          have h7 := hspec.2.2.2.2.2.2 hc ht
          have h6 := hspec.2.2.2.2.2.1
          omega
        have h3 := ih2 h1 h2
        rw [hspec.1] at h3
        exact h3

/-- C2 counterexample: a furnace completing its iron recipe into a full
output inventory; the recipe is cleared, but the declared 1 unit of iron
is not added — `Inventory.add` clamps it to the zero remaining room, so
the output amount stays at 30 instead of rising to 31. -/
theorem claim_C2_counterexample :
    recipeFurnaceIron.ticks ≤ furnaceFullOutput.processingProgress + 1 ∧
    furnaceFullOutput.outputInventory.maxCapacity -
      furnaceFullOutput.outputInventory.totalAmount < 1 ∧
    (processPhaseNode furnaceFullOutput).activeRecipe = none ∧
    ¬ ((processPhaseNode furnaceFullOutput).outputInventory.getAmount "iron" =
        furnaceFullOutput.outputInventory.getAmount "iron" + 1) := by
  decide

/-- C2 as amended: on the tick where progress reaches the duration the
active recipe is cleared, progress resets to zero and the input inventory
is untouched, but each output lands through `Inventory.add`, which clamps
to remaining capacity; hence a bounded output inventory never exceeds its
capacity (excess output is silently discarded rather than added in
full). -/
theorem claim_C2_amended_completion (s : NodeGameState) (r : Recipe)
    (hrec : ¬ getRecipesForMachine s.machineTypeId = [])
    (hact : s.activeRecipe = some r)
    (hgate : 0 < r.powerPerTick → s.powerSatisfied = true)
    (hdone : r.ticks ≤ s.processingProgress + 1) :
    (processPhaseNode s).activeRecipe = none ∧
    (processPhaseNode s).processingProgress = 0 ∧
    (processPhaseNode s).inputInventory = s.inputInventory ∧
    (processPhaseNode s).outputInventory =
      addOutputs r.outputs s.outputInventory ∧
    (0 < s.outputInventory.maxCapacity →
      s.outputInventory.totalAmount ≤ s.outputInventory.maxCapacity →
      (processPhaseNode s).outputInventory.totalAmount ≤
        s.outputInventory.maxCapacity) := by
  have hlen : ¬ (getRecipesForMachine s.machineTypeId).length = 0 := by
    simpa [List.length_eq_zero] using hrec
  have hng : ¬ (0 < r.powerPerTick ∧ s.powerSatisfied = false) := by
    rintro ⟨hp, hf⟩
    rw [hgate hp] at hf
    exact Bool.true_eq_false.mp hf
  have hb : processPhaseNode s = processActive r s :=
    processNode_active _ s r hlen hact
  have hrp := recordPower_fields r
    { s with processingProgress := s.processingProgress + 1 }
  have hprog : (recordPower r
      { s with processingProgress := s.processingProgress + 1 }).processingProgress =
      s.processingProgress + 1 := hrp.1
  have hdone2 : r.ticks ≤ (recordPower r
      { s with processingProgress := s.processingProgress + 1 }).processingProgress := by
    rw [hprog]; exact hdone
  have hcc : completeOrContinue r (recordPower r
      { s with processingProgress := s.processingProgress + 1 }) =
      { recordPower r { s with processingProgress := s.processingProgress + 1 } with
        outputInventory := addOutputs r.outputs (recordPower r
          { s with processingProgress := s.processingProgress + 1 }).outputInventory
        activeRecipe := none
        processingProgress := 0 } := by
    unfold completeOrContinue
    rw [if_pos hdone2]
  have hpa : processActive r s = completeOrContinue r (recordPower r
      { s with processingProgress := s.processingProgress + 1 }) := by
    unfold processActive
    rw [if_neg hng]
  rw [hb, hpa, hcc]
  refine ⟨rfl, rfl, ?_, ?_, ?_⟩
  · exact hrp.2.1
  · exact congrArg (addOutputs r.outputs) hrp.2.2.1
  · intro hc ht
    have h3 : (recordPower r
        { s with processingProgress := s.processingProgress + 1 }).outputInventory =
        s.outputInventory := hrp.2.2.1
    rw [h3]
    exact (addOutputs_spec r.outputs s.outputInventory).2 hc ht

/-- Evaluation of the amended C2 on the full-output furnace. -/
theorem claim_C2_witness :
    (processPhaseNode furnaceFullOutput).activeRecipe = none ∧
    (processPhaseNode furnaceFullOutput).processingProgress = 0 ∧
    (processPhaseNode furnaceFullOutput).inputInventory =
      furnaceFullOutput.inputInventory ∧
    (processPhaseNode furnaceFullOutput).outputInventory =
      addOutputs recipeFurnaceIron.outputs furnaceFullOutput.outputInventory ∧
    (0 < furnaceFullOutput.outputInventory.maxCapacity →
      furnaceFullOutput.outputInventory.totalAmount ≤
        furnaceFullOutput.outputInventory.maxCapacity →
      (processPhaseNode furnaceFullOutput).outputInventory.totalAmount ≤
        furnaceFullOutput.outputInventory.maxCapacity) :=
  claim_C2_amended_completion furnaceFullOutput recipeFurnaceIron (by decide)
    rfl (fun _ => rfl) (by decide)

-- ── Claim C7 ──

theorem Inventory.remove_exact (inv : Inventory) (id : String) (a : Int)
    (h1 : 0 < a) (h2 : a ≤ inv.getAmount id) : (inv.remove id a).1 = a := by
  simp only [Inventory.remove]
  have hmin : min (inv.getAmount id) a = a := min_eq_right h2
  rw [hmin]
  rw [if_neg (by omega : ¬ a ≤ 0)]
  split <;> rfl

theorem removeAll_fold_other (sl : List ResourceStack) (inv : Inventory)
    (x : String) (hx : x ∉ sl.map ResourceStack.resourceId) :
    (sl.foldl (fun acc s => (acc.remove s.resourceId s.amount).2) inv).getAmount x
      = inv.getAmount x := by
  induction sl generalizing inv with
  | nil => rfl
  | cons s rest ih =>
      simp only [List.map_cons, List.mem_cons] at hx
      push_neg at hx
      show (rest.foldl (fun acc t => (acc.remove t.resourceId t.amount).2)
        ((inv.remove s.resourceId s.amount).2)).getAmount x = inv.getAmount x
      rw [ih _ hx.2]
      exact (Inventory.remove_spec inv s.resourceId s.amount).2.2.2.2.2 x hx.1

theorem removeAll_fold_exact (sl : List ResourceStack) (inv : Inventory)
    (hnd : (sl.map ResourceStack.resourceId).Nodup)
    (hpos : ∀ s ∈ sl, 0 < s.amount)
    (hall : ∀ s ∈ sl, s.amount ≤ inv.getAmount s.resourceId) :
    ∀ s ∈ sl,
      (sl.foldl (fun acc t => (acc.remove t.resourceId t.amount).2) inv).getAmount
          s.resourceId
        = inv.getAmount s.resourceId - s.amount := by
  induction sl generalizing inv with
  | nil => intro s hs; simp at hs
  | cons s0 rest ih =>
      intro s hs
      simp only [List.map_cons, List.nodup_cons] at hnd
      have hpos0 := hpos s0 (List.mem_cons_self s0 rest)
      have hall0 := hall s0 (List.mem_cons_self s0 rest)
      have hexact := Inventory.remove_exact inv s0.resourceId s0.amount hpos0 hall0
      have hself := (Inventory.remove_spec inv s0.resourceId s0.amount).2.2.2.2.1
      have hother := (Inventory.remove_spec inv s0.resourceId s0.amount).2.2.2.2.2
      rcases List.mem_cons.mp hs with hs0 | hsr
      · subst hs0
        show (rest.foldl (fun acc t => (acc.remove t.resourceId t.amount).2)
          ((inv.remove s.resourceId s.amount).2)).getAmount s.resourceId =
          inv.getAmount s.resourceId - s.amount
        rw [removeAll_fold_other rest _ s.resourceId hnd.1, hself, hexact]
      · have hne : ¬ s.resourceId = s0.resourceId := by
          intro he
          exact hnd.1 (he ▸ List.mem_map.mpr ⟨s, hsr, rfl⟩)
        have hall1 : ∀ t ∈ rest, t.amount ≤
            ((inv.remove s0.resourceId s0.amount).2).getAmount t.resourceId := by
          intro t ht
          have hnet : ¬ t.resourceId = s0.resourceId := by
            intro he
            exact hnd.1 (he ▸ List.mem_map.mpr ⟨t, ht, rfl⟩)
          rw [hother t.resourceId hnet]
          exact hall t (List.mem_cons_of_mem s0 ht)
        have := ih ((inv.remove s0.resourceId s0.amount).2) hnd.2
          (fun t ht => hpos t (List.mem_cons_of_mem s0 ht)) hall1 s hsr
        show (rest.foldl (fun acc t => (acc.remove t.resourceId t.amount).2)
          ((inv.remove s0.resourceId s0.amount).2)).getAmount s.resourceId =
          inv.getAmount s.resourceId - s.amount
        rw [this, hother s.resourceId hne]

/-- C7 counterexample: with stock `iron_ore: 3`, requesting
`[iron_ore: 2, iron_ore: 2]` passes `hasAll` (each stack is individually
covered), so `removeAll` reports success — but only 3 of the requested 4
are removed (the second removal is clamped), contradicting "removes
exactly the requested amount of every stack". -/
theorem claim_C7_counterexample :
    (oreInventory.removeAll duplicateRequest).1 = true ∧
    ¬ ((oreInventory.removeAll duplicateRequest).2.getAmount "iron_ore" =
        oreInventory.getAmount "iron_ore" - (2 + 2)) := by
  decide

/-- C7 as amended: for request lists whose resource ids are pairwise
distinct and whose amounts are positive, `removeAll` is atomic — it
reports exactly `hasAll`, removes nothing on failure, and on success
removes exactly the requested amount of every stack while leaving all
other resources untouched. -/
theorem claim_C7_amended_removeAll (inv : Inventory) (sl : List ResourceStack)
    (hnd : (sl.map ResourceStack.resourceId).Nodup)
    (hpos : ∀ s ∈ sl, 0 < s.amount) :
    (inv.removeAll sl).1 = inv.hasAll sl ∧
    ((inv.removeAll sl).1 = false → (inv.removeAll sl).2 = inv) ∧
    ((inv.removeAll sl).1 = true →
      (∀ s ∈ sl, (inv.removeAll sl).2.getAmount s.resourceId =
        inv.getAmount s.resourceId - s.amount) ∧
      (∀ x, x ∉ sl.map ResourceStack.resourceId →
        (inv.removeAll sl).2.getAmount x = inv.getAmount x)) := by
  unfold Inventory.removeAll
  by_cases hall : inv.hasAll sl = true
  · rw [if_pos hall]
    have hall' : ∀ s ∈ sl, s.amount ≤ inv.getAmount s.resourceId := by
      intro s hs
      have := hall
      unfold Inventory.hasAll Inventory.has at this
      rw [List.all_eq_true] at this
      have h2 := this s hs
      exact of_decide_eq_true h2
    refine ⟨hall.symm, ?_, ?_⟩
    · intro h
      simp at h
    · intro _
      exact ⟨removeAll_fold_exact sl inv hnd hpos hall',
        fun x hx => removeAll_fold_other sl inv x hx⟩
  · rw [if_neg hall]
    have hfalse : inv.hasAll sl = false := Bool.eq_false_iff.mpr hall
    refine ⟨hfalse.symm, fun _ => rfl, ?_⟩
    intro h
    simp at h

/-- Evaluation of the amended C7 on a distinct-resource request. -/
theorem claim_C7_witness :
    ((⟨[("iron_ore", 3), ("water", 7)], 0⟩ : Inventory).removeAll
        [⟨"iron_ore", 2⟩]).1 =
      (⟨[("iron_ore", 3), ("water", 7)], 0⟩ : Inventory).hasAll
        [⟨"iron_ore", 2⟩] ∧
    (((⟨[("iron_ore", 3), ("water", 7)], 0⟩ : Inventory).removeAll
        [⟨"iron_ore", 2⟩]).1 = false →
      ((⟨[("iron_ore", 3), ("water", 7)], 0⟩ : Inventory).removeAll
        [⟨"iron_ore", 2⟩]).2 = ⟨[("iron_ore", 3), ("water", 7)], 0⟩) ∧
    (((⟨[("iron_ore", 3), ("water", 7)], 0⟩ : Inventory).removeAll
        [⟨"iron_ore", 2⟩]).1 = true →
      (∀ s ∈ ([⟨"iron_ore", 2⟩] : List ResourceStack),
        ((⟨[("iron_ore", 3), ("water", 7)], 0⟩ : Inventory).removeAll
          [⟨"iron_ore", 2⟩]).2.getAmount s.resourceId =
        (⟨[("iron_ore", 3), ("water", 7)], 0⟩ : Inventory).getAmount
          s.resourceId - s.amount) ∧
      (∀ x, x ∉ ([⟨"iron_ore", 2⟩] : List ResourceStack).map
          ResourceStack.resourceId →
        ((⟨[("iron_ore", 3), ("water", 7)], 0⟩ : Inventory).removeAll
          [⟨"iron_ore", 2⟩]).2.getAmount x =
        (⟨[("iron_ore", 3), ("water", 7)], 0⟩ : Inventory).getAmount x)) :=
  claim_C7_amended_removeAll ⟨[("iron_ore", 3), ("water", 7)], 0⟩
    [⟨"iron_ore", 2⟩] (by decide) (by decide)

-- ── Claim C1 ──

/-- C1 counterexample: for the quadruple wiring `node_1`'s output port to
an input port of the same `node_1` — a pair every legality check setup
rejects (`canConnect` is false, a self-loop) — the public `connect` still
creates and commits a connection, mutating the graph. -/
theorem claim_C1_counterexample :
    canConnect outPortNode1 inPortNode1 emptyManager.connections = false ∧
    ¬ ((connect emptyManager outPortNode1.nodeId outPortNode1.portData.id
        inPortNode1.nodeId inPortNode1.portData.id).2.connections =
      emptyManager.connections) := by
  decide

/-- C1 as amended: `connect` itself performs no validation and always
commits; the legality protocol is enforced by the caller (the port-drag
release flow), which runs `canConnect` first and invokes `connect` only
on success — so when any legality check fails, that guarded flow creates
no connection, leaves the graph (nodes, connections and counters)
unchanged, and throws nothing. -/
theorem claim_C1_amended_guarded_connect (a b : PortRef) (st : ManagerState)
    (h : canConnect a b st.connections = false) :
    tryConnectPorts a b st = st := by
  unfold tryConnectPorts
  rw [h]
  simp

/-- Evaluation of the amended C1 on the rejected self-loop pair. -/
theorem claim_C1_witness :
    tryConnectPorts outPortNode1 inPortNode1 emptyManager = emptyManager :=
  claim_C1_amended_guarded_connect outPortNode1 inPortNode1 emptyManager
    (by decide)

-- ── Claim C3 ──

theorem dupExists_eq (srcRef dstRef : PortRef) (conns : List ConnectionData) :
    dupExists srcRef dstRef conns =
      decide (∃ c ∈ conns, c.fromNodeId = srcRef.nodeId ∧
        c.fromPortId = srcRef.portData.id ∧ c.toNodeId = dstRef.nodeId ∧
        c.toPortId = dstRef.portData.id) := by
  unfold dupExists
  by_cases h : ∃ c ∈ conns, c.fromNodeId = srcRef.nodeId ∧
      c.fromPortId = srcRef.portData.id ∧ c.toNodeId = dstRef.nodeId ∧
      c.toPortId = dstRef.portData.id
  · rw [decide_eq_true h, List.any_eq_true]
    obtain ⟨c, hc, h1, h2, h3, h4⟩ := h
    exact ⟨c, hc, by simp [h1, h2, h3, h4]⟩
  · rw [decide_eq_false h]
    refine Bool.eq_false_iff.mpr fun hany => h ?_
    rw [List.any_eq_true] at hany
    obtain ⟨c, hc, hp⟩ := hany
    simp only [Bool.and_eq_true, decide_eq_true_eq] at hp
    exact ⟨c, hc, hp.1.1.1, hp.1.1.2, hp.1.2, hp.2⟩

theorem decide_ex_eq (conns : List ConnectionData) (n1 p1 n2 p2 : String) :
    decide (∃ c ∈ conns, c.fromNodeId = n1 ∧ c.fromPortId = p1 ∧
      c.toNodeId = n2 ∧ c.toPortId = p2) =
    !decide (∀ x ∈ conns, x.fromNodeId = n1 → x.fromPortId = p1 →
      x.toNodeId = n2 → ¬ x.toPortId = p2) := by
  by_cases h : ∃ c ∈ conns, c.fromNodeId = n1 ∧ c.fromPortId = p1 ∧
      c.toNodeId = n2 ∧ c.toPortId = p2
  · rw [decide_eq_true h]
    obtain ⟨c, hc, h1, h2, h3, h4⟩ := h
    have hne : ¬ (∀ x ∈ conns, x.fromNodeId = n1 → x.fromPortId = p1 →
        x.toNodeId = n2 → ¬ x.toPortId = p2) :=
      fun hall => (hall c hc h1 h2 h3) h4
    rw [decide_eq_false hne]
    rfl
  · have hall : ∀ x ∈ conns, x.fromNodeId = n1 → x.fromPortId = p1 →
        x.toNodeId = n2 → ¬ x.toPortId = p2 :=
      fun x hx h1 h2 h3 h4 => h ⟨x, hx, h1, h2, h3, h4⟩
    rw [decide_eq_false h, decide_eq_true hall]
    rfl

/-- C3: the implementation's connection-legality check agrees, on every
pair of ports and every live connection list, with the five-clause
protocol exactly as the specification words it (different nodes,
identical port types, differing directions with output-side
normalization, bound-resource agreement, and no duplicate edge). -/
theorem claim_C3_connection_legality (a b : PortRef)
    (conns : List ConnectionData) :
    canConnect a b conns = canConnectSpec a b conns := by
  unfold canConnect canConnectSpec
  by_cases hn : a.nodeId = b.nodeId
  · simp [hn]
  · by_cases ht : a.portData.portType = b.portData.portType
    · by_cases hd : a.portData.direction = b.portData.direction
      · simp [hn, ht, hd]
      · cases hda : a.portData.direction with
        | input =>
            cases hdb : b.portData.direction with
            | input => exact absurd (hda.trans hdb.symm) hd
            | output =>
                rcases hsrc : b.portData.resourceId with _ | r1
                · rcases hdst : a.portData.resourceId with _ | r2
                  · simp [resourceMismatch, hn, ht, hsrc, hdst,
                      dupExists_eq, decide_not]
                    exact decide_ex_eq conns _ _ _ _
                  · simp [resourceMismatch, hn, ht, hsrc, hdst,
                      dupExists_eq, decide_not]
                    exact decide_ex_eq conns _ _ _ _
                · rcases hdst : a.portData.resourceId with _ | r2
                  · simp [resourceMismatch, hn, ht, hsrc, hdst,
                      dupExists_eq, decide_not]
                    exact decide_ex_eq conns _ _ _ _
                  · by_cases hr : r1 = r2
                    · simp [resourceMismatch, hn, ht, hsrc, hdst, hr,
                        dupExists_eq, decide_not]
                      exact decide_ex_eq conns _ _ _ _
                    · simp [resourceMismatch, hn, ht, hsrc, hdst, hr,
                        dupExists_eq, decide_not]
        | output =>
            cases hdb : b.portData.direction with
            | output => exact absurd (hda.trans hdb.symm) hd
            | input =>
                rcases hsrc : a.portData.resourceId with _ | r1
                · rcases hdst : b.portData.resourceId with _ | r2
                  · simp [resourceMismatch, hn, ht, hsrc, hdst,
                      dupExists_eq, decide_not]
                    exact decide_ex_eq conns _ _ _ _
                  · simp [resourceMismatch, hn, ht, hsrc, hdst,
                      dupExists_eq, decide_not]
                    exact decide_ex_eq conns _ _ _ _
                · rcases hdst : b.portData.resourceId with _ | r2
                  · simp [resourceMismatch, hn, ht, hsrc, hdst,
                      dupExists_eq, decide_not]
                    exact decide_ex_eq conns _ _ _ _
                  · by_cases hr : r1 = r2
                    · simp [resourceMismatch, hn, ht, hsrc, hdst, hr,
                        dupExists_eq, decide_not]
                      exact decide_ex_eq conns _ _ _ _
                    · simp [resourceMismatch, hn, ht, hsrc, hdst, hr,
                        dupExists_eq, decide_not]
    · simp [hn, ht]

-- ── Claim C4 ──

theorem transport_diff_noop (src dst : NodeGameState) (amt : Int)
    (hamt : 0 ≤ amt) (wfs : InvWF src.outputInventory)
    (wfd : InvWF dst.inputInventory) (x : String) :
    (src.outputInventory.getAmount x - src.outputInventory.getAmount x =
      dst.inputInventory.getAmount x - dst.inputInventory.getAmount x) ∧
    0 ≤ dst.inputInventory.getAmount x - dst.inputInventory.getAmount x ∧
    dst.inputInventory.getAmount x - dst.inputInventory.getAmount x ≤ amt ∧
    dst.inputInventory.getAmount x - dst.inputInventory.getAmount x ≤
      src.outputInventory.getAmount x ∧
    (0 < dst.inputInventory.maxCapacity →
      dst.inputInventory.getAmount x - dst.inputInventory.getAmount x ≤
      dst.inputInventory.maxCapacity - dst.inputInventory.totalAmount) := by
  have hg := src.outputInventory.getAmount_nonneg x wfs
  refine ⟨by omega, by omega, by omega, by omega, fun hc => ?_⟩
  have := wfd.capBound hc
  omega

theorem transportResource_spec (src dst : NodeGameState) (rid : String)
    (amount : Int) (hamt : 0 ≤ amount)
    (wfs : InvWF src.outputInventory) (wfd : InvWF dst.inputInventory) :
    (transportResource src dst rid amount).1.inputInventory =
      src.inputInventory ∧
    (transportResource src dst rid amount).2.outputInventory =
      dst.outputInventory ∧
    ∀ x,
      (src.outputInventory.getAmount x -
        (transportResource src dst rid amount).1.outputInventory.getAmount x =
       (transportResource src dst rid amount).2.inputInventory.getAmount x -
        dst.inputInventory.getAmount x) ∧
      0 ≤ (transportResource src dst rid amount).2.inputInventory.getAmount x -
        dst.inputInventory.getAmount x ∧
      (transportResource src dst rid amount).2.inputInventory.getAmount x -
        dst.inputInventory.getAmount x ≤ amount ∧
      (transportResource src dst rid amount).2.inputInventory.getAmount x -
        dst.inputInventory.getAmount x ≤ src.outputInventory.getAmount x ∧
      (0 < dst.inputInventory.maxCapacity →
        (transportResource src dst rid amount).2.inputInventory.getAmount x -
          dst.inputInventory.getAmount x ≤
        dst.inputInventory.maxCapacity - dst.inputInventory.totalAmount) := by
  simp only [transportResource]
  by_cases h1 : min (src.outputInventory.getAmount rid) amount ≤ 0
  · rw [if_pos h1]
    exact ⟨rfl, rfl, fun x => transport_diff_noop src dst amount hamt wfs wfd x⟩
  · rw [if_neg h1]
    have htpos : 0 < min (src.outputInventory.getAmount rid) amount := by omega
    have htle_a : min (src.outputInventory.getAmount rid) amount ≤ amount :=
      min_le_right _ _
    have htle_av : min (src.outputInventory.getAmount rid) amount ≤
      src.outputInventory.getAmount rid := min_le_left _ _
    have hadd := Inventory.add_spec dst.inputInventory rid
      (min (src.outputInventory.getAmount rid) amount)
    have hmax : max (min (src.outputInventory.getAmount rid) amount) 0 =
        min (src.outputInventory.getAmount rid) amount :=
      max_eq_left (le_of_lt htpos)
    have hle : (dst.inputInventory.add rid
        (min (src.outputInventory.getAmount rid) amount)).1 ≤
        min (src.outputInventory.getAmount rid) amount :=
      le_trans hadd.2.2.1 (le_of_eq hmax)
    by_cases h2 : 0 < (dst.inputInventory.add rid
        (min (src.outputInventory.getAmount rid) amount)).1
    · rw [if_pos h2]
      have hremexact := Inventory.remove_exact src.outputInventory rid
        (dst.inputInventory.add rid
          (min (src.outputInventory.getAmount rid) amount)).1 h2
        (le_trans hle htle_av)
      have hrem := Inventory.remove_spec src.outputInventory rid
        (dst.inputInventory.add rid
          (min (src.outputInventory.getAmount rid) amount)).1
      refine ⟨rfl, rfl, fun x => ?_⟩
      by_cases hx : x = rid
      · subst hx
        have e1 := hrem.2.2.2.2.1
        rw [hremexact] at e1
        have e2 := hadd.2.2.2.1
        refine ⟨?_, ?_, ?_, ?_, fun hc => ?_⟩
        · show src.outputInventory.getAmount x -
            (src.outputInventory.remove x
              (dst.inputInventory.add x
                (min (src.outputInventory.getAmount x) amount)).1).2.getAmount x =
            (dst.inputInventory.add x
              (min (src.outputInventory.getAmount x) amount)).2.getAmount x -
            dst.inputInventory.getAmount x
          omega
        · show 0 ≤ (dst.inputInventory.add x
              (min (src.outputInventory.getAmount x) amount)).2.getAmount x -
            dst.inputInventory.getAmount x
          omega
        · show (dst.inputInventory.add x
              (min (src.outputInventory.getAmount x) amount)).2.getAmount x -
            dst.inputInventory.getAmount x ≤ amount
          omega
        · show (dst.inputInventory.add x
              (min (src.outputInventory.getAmount x) amount)).2.getAmount x -
            dst.inputInventory.getAmount x ≤ src.outputInventory.getAmount x
          omega
        · have h7 := hadd.2.2.2.2.2.2 hc (wfd.capBound hc)
          show (dst.inputInventory.add x
              (min (src.outputInventory.getAmount x) amount)).2.getAmount x -
            dst.inputInventory.getAmount x ≤
            dst.inputInventory.maxCapacity - dst.inputInventory.totalAmount
          omega
      · have e1 := hrem.2.2.2.2.2 x hx
        have e2 := hadd.2.2.2.2.1 x hx
        have hg := src.outputInventory.getAmount_nonneg x wfs
        refine ⟨?_, ?_, ?_, ?_, fun hc => ?_⟩
        · show src.outputInventory.getAmount x -
            (src.outputInventory.remove rid
              (dst.inputInventory.add rid
                (min (src.outputInventory.getAmount rid) amount)).1).2.getAmount x =
            (dst.inputInventory.add rid
              (min (src.outputInventory.getAmount rid) amount)).2.getAmount x -
            dst.inputInventory.getAmount x
          omega
        · show 0 ≤ (dst.inputInventory.add rid
              (min (src.outputInventory.getAmount rid) amount)).2.getAmount x -
            dst.inputInventory.getAmount x
          omega
        · show (dst.inputInventory.add rid
              (min (src.outputInventory.getAmount rid) amount)).2.getAmount x -
            dst.inputInventory.getAmount x ≤ amount
          omega
        · show (dst.inputInventory.add rid
              (min (src.outputInventory.getAmount rid) amount)).2.getAmount x -
            dst.inputInventory.getAmount x ≤ src.outputInventory.getAmount x
          omega
        · have := wfd.capBound hc
          show (dst.inputInventory.add rid
              (min (src.outputInventory.getAmount rid) amount)).2.getAmount x -
            dst.inputInventory.getAmount x ≤
            dst.inputInventory.maxCapacity - dst.inputInventory.totalAmount
          omega
    · rw [if_neg h2]
      have hz : (dst.inputInventory.add rid
          (min (src.outputInventory.getAmount rid) amount)).1 = 0 := by
        have := hadd.2.1
        omega
      refine ⟨rfl, rfl, fun x => ?_⟩
      by_cases hx : x = rid
      · subst hx
        have e2 := hadd.2.2.2.1
        rw [hz] at e2
        have hg := src.outputInventory.getAmount_nonneg x wfs
        refine ⟨?_, ?_, ?_, ?_, fun hc => ?_⟩
        · show src.outputInventory.getAmount x -
            src.outputInventory.getAmount x =
            (dst.inputInventory.add x
              (min (src.outputInventory.getAmount x) amount)).2.getAmount x -
            dst.inputInventory.getAmount x
          omega
        · show 0 ≤ (dst.inputInventory.add x
              (min (src.outputInventory.getAmount x) amount)).2.getAmount x -
            dst.inputInventory.getAmount x
          omega
        · show (dst.inputInventory.add x
              (min (src.outputInventory.getAmount x) amount)).2.getAmount x -
            dst.inputInventory.getAmount x ≤ amount
          omega
        · show (dst.inputInventory.add x
              (min (src.outputInventory.getAmount x) amount)).2.getAmount x -
            dst.inputInventory.getAmount x ≤ src.outputInventory.getAmount x
          omega
        · have := wfd.capBound hc
          show (dst.inputInventory.add x
              (min (src.outputInventory.getAmount x) amount)).2.getAmount x -
            dst.inputInventory.getAmount x ≤
            dst.inputInventory.maxCapacity - dst.inputInventory.totalAmount
          omega
      · have e2 := hadd.2.2.2.2.1 x hx
        have hg := src.outputInventory.getAmount_nonneg x wfs
        refine ⟨?_, ?_, ?_, ?_, fun hc => ?_⟩
        · show src.outputInventory.getAmount x -
            src.outputInventory.getAmount x =
            (dst.inputInventory.add rid
              (min (src.outputInventory.getAmount rid) amount)).2.getAmount x -
            dst.inputInventory.getAmount x
          omega
        · show 0 ≤ (dst.inputInventory.add rid
              (min (src.outputInventory.getAmount rid) amount)).2.getAmount x -
            dst.inputInventory.getAmount x
          omega
        · show (dst.inputInventory.add rid
              (min (src.outputInventory.getAmount rid) amount)).2.getAmount x -
            dst.inputInventory.getAmount x ≤ amount
          omega
        · show (dst.inputInventory.add rid
              (min (src.outputInventory.getAmount rid) amount)).2.getAmount x -
            dst.inputInventory.getAmount x ≤ src.outputInventory.getAmount x
          omega
        · have := wfd.capBound hc
          show (dst.inputInventory.add rid
              (min (src.outputInventory.getAmount rid) amount)).2.getAmount x -
            dst.inputInventory.getAmount x ≤
            dst.inputInventory.maxCapacity - dst.inputInventory.totalAmount
          omega

theorem transportAmount_nonneg (pt : PortType) : 0 ≤ transportAmount pt := by
  cases pt <;> decide

/-- C4: for one connection processed in the transport phase (endpoint
lookups already resolved), a `power` source port moves nothing, and
otherwise — for every resource — the amount removed from the source's
output inventory equals the amount added to the destination's input
inventory, that amount is non-negative, at most the fixed per-type
transport amount (item 1, liquid 10, gas 10), at most what the source
holds, and at most the destination's remaining room when it is bounded.
(The two inventory well-formedness hypotheses are the representation
invariants maintained by every inventory operation.) -/
theorem claim_C4_transport_conservation (fromPort : PortData)
    (src dst : NodeGameState)
    (wfs : InvWF src.outputInventory) (wfd : InvWF dst.inputInventory) :
    (fromPort.portType = PortType.power →
      transportConn fromPort src dst = (src, dst)) ∧
    ∀ x,
      (src.outputInventory.getAmount x -
        (transportConn fromPort src dst).1.outputInventory.getAmount x =
       (transportConn fromPort src dst).2.inputInventory.getAmount x -
        dst.inputInventory.getAmount x) ∧
      0 ≤ (transportConn fromPort src dst).2.inputInventory.getAmount x -
        dst.inputInventory.getAmount x ∧
      (transportConn fromPort src dst).2.inputInventory.getAmount x -
        dst.inputInventory.getAmount x ≤ transportAmount fromPort.portType ∧
      (transportConn fromPort src dst).2.inputInventory.getAmount x -
        dst.inputInventory.getAmount x ≤ src.outputInventory.getAmount x ∧
      (0 < dst.inputInventory.maxCapacity →
        (transportConn fromPort src dst).2.inputInventory.getAmount x -
          dst.inputInventory.getAmount x ≤
        dst.inputInventory.maxCapacity - dst.inputInventory.totalAmount) := by
  have hamt := transportAmount_nonneg fromPort.portType
  unfold transportConn
  by_cases hpw : fromPort.portType = PortType.power
  · rw [if_pos hpw]
    exact ⟨fun _ => rfl, fun x =>
      transport_diff_noop src dst (transportAmount fromPort.portType) hamt
        wfs wfd x⟩
  · rw [if_neg hpw]
    refine ⟨fun h => absurd h hpw, ?_⟩
    cases hres : fromPort.resourceId with
    | some rid =>
        exact (transportResource_spec src dst rid
          (transportAmount fromPort.portType) hamt wfs wfd).2.2
    | none =>
        cases hf : src.outputInventory.toStacks.find?
            (fun stack => isResourceCompatible stack.resourceId fromPort) with
        | some stack =>
            exact (transportResource_spec src dst stack.resourceId
              (transportAmount fromPort.portType) hamt wfs wfd).2.2
        | none =>
            exact fun x =>
              transport_diff_noop src dst (transportAmount fromPort.portType)
                hamt wfs wfd x

/-- Evaluation of C4 on a bound rock connection into a nearly full
destination. -/
theorem claim_C4_witness :
    (rockOutPort.portType = PortType.power →
      transportConn rockOutPort storageSource storageDest =
        (storageSource, storageDest)) ∧
    ∀ x,
      (storageSource.outputInventory.getAmount x -
        (transportConn rockOutPort storageSource
          storageDest).1.outputInventory.getAmount x =
       (transportConn rockOutPort storageSource
          storageDest).2.inputInventory.getAmount x -
        storageDest.inputInventory.getAmount x) ∧
      0 ≤ (transportConn rockOutPort storageSource
          storageDest).2.inputInventory.getAmount x -
        storageDest.inputInventory.getAmount x ∧
      (transportConn rockOutPort storageSource
          storageDest).2.inputInventory.getAmount x -
        storageDest.inputInventory.getAmount x ≤
        transportAmount rockOutPort.portType ∧
      (transportConn rockOutPort storageSource
          storageDest).2.inputInventory.getAmount x -
        storageDest.inputInventory.getAmount x ≤
        storageSource.outputInventory.getAmount x ∧
      (0 < storageDest.inputInventory.maxCapacity →
        (transportConn rockOutPort storageSource
            storageDest).2.inputInventory.getAmount x -
          storageDest.inputInventory.getAmount x ≤
        storageDest.inputInventory.maxCapacity -
          storageDest.inputInventory.totalAmount) :=
  claim_C4_transport_conservation rockOutPort storageSource storageDest
    ⟨by decide, by decide, by decide⟩ ⟨by decide, by decide, by decide⟩

-- ── Claim C9: decimal rendering and parsing ──

theorem decCharsCore_append (fuel : Nat) :
    ∀ (n : Nat) (ds : List Char),
      decCharsCore fuel n ds = decCharsCore fuel n [] ++ ds := by
  induction fuel with
  | zero => intro n ds; simp [decCharsCore]
  | succ fuel ih =>
      intro n ds
      simp only [decCharsCore]
      by_cases h : n < 10
      · simp [h]
      · rw [if_neg h, if_neg h, ih (n / 10) (digitChar (n % 10) :: ds),
          ih (n / 10) [digitChar (n % 10)]]
        simp

theorem decChars_ne_nil (n : Nat) : decChars n ≠ [] := by
  unfold decChars
  simp only [decCharsCore]
  by_cases h : n < 10
  · simp [h]
  · rw [if_neg h, decCharsCore_append n (n / 10) [digitChar (n % 10)]]
    simp

theorem decCharsCore_digits (fuel : Nat) :
    ∀ (n : Nat) (ds : List Char),
      (∀ c ∈ ds, ∃ d, d < 10 ∧ c = digitChar d) →
      ∀ c ∈ decCharsCore fuel n ds, ∃ d, d < 10 ∧ c = digitChar d := by
  induction fuel with
  | zero =>
      intro n ds h c hc
      simp only [decCharsCore] at hc
      exact h c hc
  | succ fuel ih =>
      intro n ds h c hc
      simp only [decCharsCore] at hc
      by_cases hn : n < 10
      · rw [if_pos hn] at hc
        rcases List.mem_cons.mp hc with h1 | h1
        · exact ⟨n % 10, Nat.mod_lt n (by omega), h1⟩
        · exact h c h1
      · rw [if_neg hn] at hc
        refine ih (n / 10) (digitChar (n % 10) :: ds) ?_ c hc
        intro c2 hc2
        rcases List.mem_cons.mp hc2 with h1 | h1
        · exact ⟨n % 10, Nat.mod_lt n (by omega), h1⟩
        · exact h c2 h1

theorem digitVal_digitChar : ∀ d, d < 10 → digitVal (digitChar d) = some d := by
  decide

theorem decValCore_digits (cs : List Char) :
    ∀ acc : Nat, (∀ c ∈ cs, ∃ d, d < 10 ∧ c = digitChar d) →
      decValCore cs acc =
        some (cs.foldl (fun a c => a * 10 + ((digitVal c).getD 0)) acc) := by
  induction cs with
  | nil => intro acc h; rfl
  | cons c rest ih =>
      intro acc h
      obtain ⟨d, hd, hc⟩ := h c (List.mem_cons_self c rest)
      subst hc
      simp only [decValCore, digitVal_digitChar d hd]
      rw [ih _ (fun c2 hc2 => h c2 (List.mem_cons_of_mem _ hc2))]
      simp [digitVal_digitChar d hd]

theorem foldl_decCharsCore (fuel : Nat) :
    ∀ (n acc : Nat), n < 10 ^ fuel →
      (decCharsCore fuel n []).foldl
          (fun a c => a * 10 + ((digitVal c).getD 0)) acc =
        acc * 10 ^ (decCharsCore fuel n []).length + n := by
  induction fuel with
  | zero =>
      intro n acc h
      have : n = 0 := by simpa using h
      subst this
      simp [decCharsCore]
  | succ fuel ih =>
      intro n acc h
      simp only [decCharsCore]
      by_cases hn : n < 10
      · rw [if_pos hn]
        simp only [List.foldl_cons, List.foldl_nil, List.length_cons,
          List.length_nil, Nat.mod_eq_of_lt hn, digitVal_digitChar n hn,
          Option.getD_some]
        norm_num
      · rw [if_neg hn]
        rw [decCharsCore_append fuel (n / 10) [digitChar (n % 10)]]
        rw [List.foldl_append]
        have hdiv : n / 10 < 10 ^ fuel := by
          have h2 : n < 10 ^ fuel * 10 := by
            rw [← pow_succ]; exact h
          omega
        rw [ih (n / 10) acc hdiv]
        simp only [List.foldl_cons, List.foldl_nil,
          digitVal_digitChar (n % 10) (Nat.mod_lt n (by omega)),
          Option.getD_some, List.length_append, List.length_cons,
          List.length_nil]
        rw [pow_succ]
        have hmod := Nat.div_add_mod n 10
        generalize (10 : Nat) ^ (decCharsCore fuel (n / 10) []).length = t
        ring_nf
        omega

theorem decimalValue_decChars (n : Nat) : decimalValue (decChars n) = some n := by
  have hne := decChars_ne_nil n
  have hdig : ∀ c ∈ decChars n, ∃ d, d < 10 ∧ c = digitChar d :=
    decCharsCore_digits (n + 1) n [] (by simp)
  obtain ⟨c, cs, hcs⟩ : ∃ c cs, decChars n = c :: cs := by
    cases hh : decChars n with
    | nil => exact absurd hh hne
    | cons c cs => exact ⟨c, cs, rfl⟩
  have h1 : decimalValue (decChars n) = decValCore (decChars n) 0 := by
    rw [hcs]; rfl
  rw [h1, decValCore_digits _ 0 hdig]
  have hlt : n < 10 ^ (n + 1) := by
    calc n < 10 ^ n := Nat.lt_pow_self (by omega) n
    _ ≤ 10 ^ (n + 1) := Nat.pow_le_pow_right (by omega) (by omega)
  have h2 := foldl_decCharsCore (n + 1) n 0 hlt
  unfold decChars
  rw [h2]
  simp

theorem mkId_inj_suffix (kind : String) (a b2 : Nat)
    (h : mkId kind a = mkId kind b2) : a = b2 := by
  have hd : kind.data ++ '_' :: decChars a = kind.data ++ '_' :: decChars b2 :=
    congrArg String.data h
  have h2 : decChars a = decChars b2 := by
    have h3 := List.append_cancel_left hd
    exact List.tail_eq_of_cons_eq h3
  have h4 : some a = some b2 := by
    rw [← decimalValue_decChars a, ← decimalValue_decChars b2, h2]
  exact Option.some.inj h4

theorem parseIdSuffix_mkId (kind : String) (k : Nat) :
    parseIdSuffix ⟨kind.data ++ ['_']⟩ (mkId kind k) = some k := by
  unfold parseIdSuffix
  have hdata2 : (mkId kind k).data = (kind.data ++ ['_']) ++ decChars k := by
    show kind.data ++ '_' :: decChars k = (kind.data ++ ['_']) ++ decChars k
    simp
  have hpre : ((⟨kind.data ++ ['_']⟩ : String).data).isPrefixOf
      ((mkId kind k).data) = true := by
    show (kind.data ++ ['_']).isPrefixOf ((mkId kind k).data) = true
    rw [hdata2, List.isPrefixOf_iff_prefix]
    exact List.prefix_append _ _
  rw [if_pos hpre]
  show decimalValue ((mkId kind k).data.drop (kind.data ++ ['_']).length) =
    some k
  rw [hdata2, List.drop_left]
  exact decimalValue_decChars k

theorem parseIdSuffix_node (k : Nat) :
    parseIdSuffix "node_" (mkId "node" k) = some k := by
  have h : ("node_" : String) = ⟨"node".data ++ ['_']⟩ := by decide
  rw [h]
  exact parseIdSuffix_mkId "node" k

theorem parseIdSuffix_port (k : Nat) :
    parseIdSuffix "port_" (mkId "port" k) = some k := by
  have h : ("port_" : String) = ⟨"port".data ++ ['_']⟩ := by decide
  rw [h]
  exact parseIdSuffix_mkId "port" k

theorem parseIdSuffix_conn (k : Nat) :
    parseIdSuffix "conn_" (mkId "conn" k) = some k := by
  have h : ("conn_" : String) = ⟨"conn".data ++ ['_']⟩ := by decide
  rw [h]
  exact parseIdSuffix_mkId "conn" k

theorem mkId_node_ne_port (a k : Nat) : ¬ mkId "node" a = mkId "port" k := by
  intro h
  have hd : ('n' :: 'o' :: 'd' :: 'e' :: '_' :: decChars a) =
      ('p' :: 'o' :: 'r' :: 't' :: '_' :: decChars k) := congrArg String.data h
  simp at hd

theorem mkId_node_ne_conn (a k : Nat) : ¬ mkId "node" a = mkId "conn" k := by
  intro h
  have hd : ('n' :: 'o' :: 'd' :: 'e' :: '_' :: decChars a) =
      ('c' :: 'o' :: 'n' :: 'n' :: '_' :: decChars k) := congrArg String.data h
  simp at hd

theorem mkId_port_ne_conn (a k : Nat) : ¬ mkId "port" a = mkId "conn" k := by
  intro h
  have hd : ('p' :: 'o' :: 'r' :: 't' :: '_' :: decChars a) =
      ('c' :: 'o' :: 'n' :: 'n' :: '_' :: decChars k) := congrArg String.data h
  simp at hd

-- ── Claim C9: maximum-suffix folds and freshness ──

theorem maxSuffixStep_ge_acc (pre : String) (acc : Nat) (id : String) :
    acc ≤ maxSuffixStep pre acc id := by
  unfold maxSuffixStep
  cases parseIdSuffix pre id with
  | none => exact le_refl acc
  | some num =>
      show acc ≤ if acc < num then num else acc
      by_cases h : acc < num
      · rw [if_pos h]; omega
      · rw [if_neg h]

theorem maxSuffixStep_ge_parsed (pre : String) (acc : Nat) (id : String)
    (k : Nat) (hk : parseIdSuffix pre id = some k) :
    k ≤ maxSuffixStep pre acc id := by
  unfold maxSuffixStep
  rw [hk]
  show k ≤ if acc < k then k else acc
  by_cases h : acc < k
  · rw [if_pos h]
  · rw [if_neg h]; omega

theorem foldl_maxSuffixStep_ge_acc (pre : String) (ids : List String) :
    ∀ acc : Nat, acc ≤ ids.foldl (maxSuffixStep pre) acc := by
  induction ids with
  | nil => intro acc; exact le_refl acc
  | cons id rest ih =>
      intro acc
      exact le_trans (maxSuffixStep_ge_acc pre acc id) (ih _)

theorem foldl_maxSuffixStep_ge (pre : String) (ids : List String) :
    ∀ (acc : Nat) (id : String), id ∈ ids →
      ∀ k, parseIdSuffix pre id = some k →
        k ≤ ids.foldl (maxSuffixStep pre) acc := by
  induction ids with
  | nil => intro acc id hid; simp at hid
  | cons id0 rest ih =>
      intro acc id hid k hk
      rcases List.mem_cons.mp hid with h1 | h1
      · subst h1
        exact le_trans (maxSuffixStep_ge_parsed pre acc id k hk)
          (foldl_maxSuffixStep_ge_acc pre rest _)
      · exact ih _ id h1 k hk

theorem portFold_ge_acc (nodes : List NodeData) :
    ∀ acc : Nat, acc ≤ nodes.foldl
      (fun acc2 n => (n.inputs ++ n.outputs).foldl
        (fun acc3 p => maxSuffixStep "port_" acc3 p.id) acc2) acc := by
  induction nodes with
  | nil => intro acc; exact le_refl acc
  | cons n0 rest ih =>
      intro acc
      rw [List.foldl_cons]
      refine le_trans ?_ (ih _)
      show acc ≤ (n0.inputs ++ n0.outputs).foldl
        (fun acc3 p => maxSuffixStep "port_" acc3 p.id) acc
      rw [← List.foldl_map PortData.id (maxSuffixStep "port_")]
      exact foldl_maxSuffixStep_ge_acc "port_" _ acc

theorem portFold_ge (nodes : List NodeData) :
    ∀ (acc : Nat) (n : NodeData), n ∈ nodes →
      ∀ p ∈ n.inputs ++ n.outputs, ∀ k,
        parseIdSuffix "port_" p.id = some k →
        k ≤ nodes.foldl
          (fun acc2 n2 => (n2.inputs ++ n2.outputs).foldl
            (fun acc3 p2 => maxSuffixStep "port_" acc3 p2.id) acc2) acc := by
  induction nodes with
  | nil => intro acc n hn; simp at hn
  | cons n0 rest ih =>
      intro acc n hn p hp k hk
      rw [List.foldl_cons]
      rcases List.mem_cons.mp hn with h1 | h1
      · subst h1
        refine le_trans ?_ (portFold_ge_acc rest _)
        show k ≤ (n.inputs ++ n.outputs).foldl
          (fun acc3 p2 => maxSuffixStep "port_" acc3 p2.id) acc
        rw [← List.foldl_map PortData.id (maxSuffixStep "port_")]
        exact foldl_maxSuffixStep_ge "port_" _ acc p.id
          (List.mem_map.mpr ⟨p, hp, rfl⟩) k hk
      · exact ih _ n h1 p hp k hk

theorem deserializeGraph_node_ge (g : GenState) (data : GraphSaveData)
    (n : NodeData) (hn : n ∈ data.nodes) (k : Nat)
    (hk : parseIdSuffix "node_" n.id = some k) :
    k ≤ (deserializeGraph g data).node := by
  show k ≤ max g.node
    (data.nodes.foldl (fun acc n2 => maxSuffixStep "node_" acc n2.id) 0)
  refine le_trans ?_ (le_max_right _ _)
  rw [← List.foldl_map NodeData.id (maxSuffixStep "node_")]
  exact foldl_maxSuffixStep_ge "node_" _ 0 n.id
    (List.mem_map.mpr ⟨n, hn, rfl⟩) k hk

theorem deserializeGraph_port_ge (g : GenState) (data : GraphSaveData)
    (n : NodeData) (hn : n ∈ data.nodes) (p : PortData)
    (hp : p ∈ n.inputs ++ n.outputs) (k : Nat)
    (hk : parseIdSuffix "port_" p.id = some k) :
    k ≤ (deserializeGraph g data).port := by
  show k ≤ max g.port
    (data.nodes.foldl
      (fun acc n2 => (n2.inputs ++ n2.outputs).foldl
        (fun acc2 p2 => maxSuffixStep "port_" acc2 p2.id) acc) 0)
  exact le_trans (portFold_ge data.nodes 0 n hn p hp k hk) (le_max_right _ _)

theorem deserializeGraph_conn_ge (g : GenState) (data : GraphSaveData)
    (c : ConnectionData) (hc : c ∈ data.connections) (k : Nat)
    (hk : parseIdSuffix "conn_" c.id = some k) :
    k ≤ (deserializeGraph g data).conn := by
  show k ≤ max g.conn
    (data.connections.foldl (fun acc c2 => maxSuffixStep "conn_" acc c2.id) 0)
  refine le_trans ?_ (le_max_right _ _)
  rw [← List.foldl_map ConnectionData.id (maxSuffixStep "conn_")]
  exact foldl_maxSuffixStep_ge "conn_" _ 0 c.id
    (List.mem_map.mpr ⟨c, hc, rfl⟩) k hk

/-- C9: after loading a well-formed persisted graph, each identity counter
is at least every numeric suffix observed in the loaded data for its
kind, and consequently every identity generated afterwards (from any
generator state at least as advanced) collides with no identity in the
loaded graph. -/
theorem claim_C9_deserialize_advances (g : GenState) (data : GraphSaveData)
    (wf : WellFormedGraph data) :
    (∀ n ∈ data.nodes, ∀ k, n.id = mkId "node" k →
      k ≤ (deserializeGraph g data).node) ∧
    (∀ n ∈ data.nodes, ∀ p ∈ n.inputs ++ n.outputs, ∀ k,
      p.id = mkId "port" k → k ≤ (deserializeGraph g data).port) ∧
    (∀ c ∈ data.connections, ∀ k, c.id = mkId "conn" k →
      k ≤ (deserializeGraph g data).conn) ∧
    (∀ g1 : GenState, (deserializeGraph g data).node ≤ g1.node →
      (generateNodeId g1).1 ∉ graphIds data) ∧
    (∀ g1 : GenState, (deserializeGraph g data).port ≤ g1.port →
      (generatePortId g1).1 ∉ graphIds data) ∧
    (∀ g1 : GenState, (deserializeGraph g data).conn ≤ g1.conn →
      (generateConnectionId g1).1 ∉ graphIds data) := by
  obtain ⟨wfn, wfp, wfc⟩ := wf
  have hnode : ∀ n ∈ data.nodes, ∀ k, n.id = mkId "node" k →
      k ≤ (deserializeGraph g data).node := by
    intro n hn k hk
    exact deserializeGraph_node_ge g data n hn k
      (by rw [hk]; exact parseIdSuffix_node k)
  have hport : ∀ n ∈ data.nodes, ∀ p ∈ n.inputs ++ n.outputs, ∀ k,
      p.id = mkId "port" k → k ≤ (deserializeGraph g data).port := by
    intro n hn p hp k hk
    exact deserializeGraph_port_ge g data n hn p hp k
      (by rw [hk]; exact parseIdSuffix_port k)
  have hconn : ∀ c ∈ data.connections, ∀ k, c.id = mkId "conn" k →
      k ≤ (deserializeGraph g data).conn := by
    intro c hc k hk
    exact deserializeGraph_conn_ge g data c hc k
      (by rw [hk]; exact parseIdSuffix_conn k)
  refine ⟨hnode, hport, hconn, ?_, ?_, ?_⟩
  · intro g1 hge hmem
    rcases List.mem_append.mp hmem with hmem1 | hcon
    rcases List.mem_append.mp hmem1 with hnod | hprt
    · obtain ⟨n, hn, hid⟩ := List.mem_map.mp hnod
      obtain ⟨k, hk⟩ := wfn n hn
      have heq : mkId "node" k = mkId "node" (g1.node + 1) := by
        rw [← hk, hid]; rfl
      have hke := mkId_inj_suffix "node" k (g1.node + 1) heq
      have hb := hnode n hn k hk
      omega
    · obtain ⟨n, hn, hidin⟩ := List.mem_flatMap.mp hprt
      obtain ⟨p, hp, hid⟩ := List.mem_map.mp hidin
      obtain ⟨k, hk⟩ := wfp n hn p hp
      exact mkId_node_ne_port (g1.node + 1) k (by rw [← hk, hid]; rfl)
    · obtain ⟨c, hc, hid⟩ := List.mem_map.mp hcon
      obtain ⟨k, hk⟩ := wfc c hc
      exact mkId_node_ne_conn (g1.node + 1) k (by rw [← hk, hid]; rfl)
  · intro g1 hge hmem
    rcases List.mem_append.mp hmem with hmem1 | hcon
    rcases List.mem_append.mp hmem1 with hnod | hprt
    · obtain ⟨n, hn, hid⟩ := List.mem_map.mp hnod
      obtain ⟨k, hk⟩ := wfn n hn
      exact mkId_node_ne_port k (g1.port + 1) (by rw [← hk, hid]; rfl)
    · obtain ⟨n, hn, hidin⟩ := List.mem_flatMap.mp hprt
      obtain ⟨p, hp, hid⟩ := List.mem_map.mp hidin
      obtain ⟨k, hk⟩ := wfp n hn p hp
      have heq : mkId "port" k = mkId "port" (g1.port + 1) := by
        rw [← hk, hid]; rfl
      have hke := mkId_inj_suffix "port" k (g1.port + 1) heq
      have hb := hport n hn p hp k hk
      omega
    · obtain ⟨c, hc, hid⟩ := List.mem_map.mp hcon
      obtain ⟨k, hk⟩ := wfc c hc
      exact mkId_port_ne_conn (g1.port + 1) k (by rw [← hk, hid]; rfl)
  · intro g1 hge hmem
    rcases List.mem_append.mp hmem with hmem1 | hcon
    rcases List.mem_append.mp hmem1 with hnod | hprt
    · obtain ⟨n, hn, hid⟩ := List.mem_map.mp hnod
      obtain ⟨k, hk⟩ := wfn n hn
      exact mkId_node_ne_conn k (g1.conn + 1) (by rw [← hk, hid]; rfl)
    · obtain ⟨n, hn, hidin⟩ := List.mem_flatMap.mp hprt
      obtain ⟨p, hp, hid⟩ := List.mem_map.mp hidin
      obtain ⟨k, hk⟩ := wfp n hn p hp
      exact mkId_port_ne_conn k (g1.conn + 1) (by rw [← hk, hid]; rfl)
    · obtain ⟨c, hc, hid⟩ := List.mem_map.mp hcon
      obtain ⟨k, hk⟩ := wfc c hc
      have heq : mkId "conn" k = mkId "conn" (g1.conn + 1) := by
        rw [← hk, hid]; rfl
      have hke := mkId_inj_suffix "conn" k (g1.conn + 1) heq
      have hb := hconn c hc k hk
      omega

/-- Evaluation of C9 on a small persisted graph. -/
theorem claim_C9_witness :
    (∀ n ∈ sampleSave.nodes, ∀ k, n.id = mkId "node" k →
      k ≤ (deserializeGraph ⟨0, 0, 0⟩ sampleSave).node) ∧
    (∀ n ∈ sampleSave.nodes, ∀ p ∈ n.inputs ++ n.outputs, ∀ k,
      p.id = mkId "port" k → k ≤ (deserializeGraph ⟨0, 0, 0⟩ sampleSave).port) ∧
    (∀ c ∈ sampleSave.connections, ∀ k, c.id = mkId "conn" k →
      k ≤ (deserializeGraph ⟨0, 0, 0⟩ sampleSave).conn) ∧
    (∀ g1 : GenState, (deserializeGraph ⟨0, 0, 0⟩ sampleSave).node ≤ g1.node →
      (generateNodeId g1).1 ∉ graphIds sampleSave) ∧
    (∀ g1 : GenState, (deserializeGraph ⟨0, 0, 0⟩ sampleSave).port ≤ g1.port →
      (generatePortId g1).1 ∉ graphIds sampleSave) ∧
    (∀ g1 : GenState, (deserializeGraph ⟨0, 0, 0⟩ sampleSave).conn ≤ g1.conn →
      (generateConnectionId g1).1 ∉ graphIds sampleSave) := by
  refine claim_C9_deserialize_advances ⟨0, 0, 0⟩ sampleSave ⟨?_, ?_, ?_⟩
  · intro n hn
    rcases List.mem_singleton.mp hn with rfl
    exact ⟨7, rfl⟩
  · intro n hn p hp
    rcases List.mem_singleton.mp hn with rfl
    rcases List.mem_singleton.mp (by simpa using hp) with rfl
    exact ⟨9, rfl⟩
  · intro c hc
    rcases List.mem_singleton.mp hc with rfl
    exact ⟨4, rfl⟩

/-- Evaluation of C10 for an unknown machine type, overwriting an existing
registration. -/
theorem claim_C10_witness :
    ∃ capv : Int,
      (mapGet MACHINE_TYPES "conveyor" = none → capv = 20) ∧
      (∀ d, mapGet MACHINE_TYPES "conveyor" = some d →
        capv = d.inventoryCapacity) ∧
      mapGet (registerNode minerStates "node_1" "conveyor") "node_1" =
        some { inputInventory := ⟨[], capv⟩
               outputInventory := ⟨[], capv⟩
               activeRecipe := none
               processingProgress := 0
               machineTypeId := "conveyor"
               powerConsumed := 0
               powerProduced := 0
               selectedRecipeIndex := -1
               powerSatisfied := true } :=
  claim_C10_register_node minerStates "node_1" "conveyor"

end RockRock
